import Mathlib

/-!
Shallow embedding of the address-plan generator of
`generate_inventory.py` (class `InventoryGenerator`): the planner
`generate_ip_addresses` and the per-device builders
`generate_spine_config` / `generate_leaf_config`.

Machine integers are `Nat`; IPv4 addresses are their 32-bit numeric
value.  Python's f-string address rendering `f"{ip}/32"` is embedded as
the structured pair `CIDR` (address, mask length), since the decimal
rendering of a 32-bit address with a mask suffix is injective.
Management addresses are genuine strings, because the code builds them
by raw string concatenation (`f"{base}.{n}"`) whose string-level
behaviour is itself under scrutiny.  Python exceptions (`IndexError`
from `list(...)[i]`, `StopIteration` from `next`, `KeyError` from
`dict[k]`) become the constructors of `PlanError`, and fallible code
returns `Except PlanError _`: an uncaught exception aborts the whole
computation, so no partial result is ever observable.
-/

/-- Decimal digits of a natural number, most significant first, computed
with explicit fuel so that the definition is structurally recursive and
kernel-reducible.  `decDigitsAux (n+1) n` is the digit list of `n`. -/
def decDigitsAux : Nat → Nat → List Nat
  | 0, _ => []
  | fuel + 1, n => if n < 10 then [n] else decDigitsAux fuel (n / 10) ++ [n % 10]

/-- Decimal digit list of `n`, most significant first (`[0]` for zero). -/
def decDigits (n : Nat) : List Nat := decDigitsAux (n + 1) n

/-- Decimal string of a natural number: the embedding of Python's
`str(int)` / f-string interpolation of a non-negative integer. -/
def natRepr (n : Nat) : String := ⟨(decDigits n).map Nat.digitChar⟩

/-- Python's `f"{n:02d}"`: zero-pad to width 2. -/
def pad2 (n : Nat) : String := if n < 10 then "0" ++ natRepr n else natRepr n

/-- Hostname `f"spine{idx+1:02d}"` resp. `f"leaf{idx+1:02d}"`. -/
def hostname2 (role : String) (idx : Nat) : String := role ++ pad2 (idx + 1)

/-- Interconnect dict key `f"spine{spine_idx+1}_leaf{leaf_idx+1}"`
(note: unpadded, unlike hostnames). -/
def pairKey (s l : Nat) : String :=
  "spine" ++ natRepr (s + 1) ++ "_leaf" ++ natRepr (l + 1)

/-- An IPv4 network (`ipaddress.IPv4Network`): numeric network address
and mask length. -/
structure IPv4Net where
  base : Nat
  prefixLen : Nat
deriving DecidableEq

/-- Total number of addresses in the network. -/
def netSize (net : IPv4Net) : Nat := 2 ^ (32 - net.prefixLen)

/-- Number of usable host addresses yielded by
`IPv4Network.hosts()`: all addresses except network and broadcast, but
for /31 and /32 every address (Python yields both /31 addresses and the
single /32 address). -/
def hostCount (net : IPv4Net) : Nat :=
  if 31 ≤ net.prefixLen then netSize net else netSize net - 2

/-- The `k`-th usable host address (0-based), in the ascending order in
which `hosts()` yields them. -/
def hostAddr (net : IPv4Net) (k : Nat) : Nat :=
  if 31 ≤ net.prefixLen then net.base + k else net.base + 1 + k

/-- `list(net.hosts())`: the usable host addresses in ascending order. -/
def hostsList (net : IPv4Net) : List Nat :=
  (List.range (hostCount net)).map (hostAddr net)

/-- An address with a mask suffix: the embedding of the rendered string
`f"{ip}/{mask}"`. -/
structure CIDR where
  addr : Nat
  maskLen : Nat
deriving DecidableEq

/-- Python `dict` lookup `m[k]` / `m.get(k)` over an insertion-ordered
association list (all dicts built by the generator have distinct keys). -/
def dictGet {α : Type} : List (String × α) → String → Option α
  | [], _ => none
  | (k', v) :: t, k => if k' = k then some v else dictGet t k

/-- Interface mapping mode: `"1"` Sequential, `"2"` ExactMatch. -/
inductive MapMode
  | sequential
  | exactMatch
deriving DecidableEq

/-- Management IP mode: `"auto"` or `"manual"`. -/
inductive MgmtMode
  | auto
  | manual
deriving DecidableEq

/-- The configuration dict assembled by `get_user_input`, with the four
subnet strings already parsed into `IPv4Net` (the planner parses them
first thing; a malformed CIDR aborts before any planning). -/
structure Config where
  fabric_name : String
  asn : String
  spine_loopback_subnet : IPv4Net
  leaf_loopback_subnet : IPv4Net
  vtep_loopback_subnet : IPv4Net
  interconnect_subnet_base : IPv4Net
  spine_count : Nat
  leaf_count : Nat
  spine_interface_start : Nat
  leaf_interface_start : Nat
  leaf_access_interface : String
  interface_mapping_mode : MapMode
  spine_interfaces : List (String × List String)
  leaf_interfaces : List (String × List String)
  mgmt_mode : MgmtMode
  spine_mgmt_ips : List (String × String)
  leaf_mgmt_ips : List (String × String)
  mgmt_base_ip : String
  mgmt_start : Nat
deriving DecidableEq

/-- The Python exceptions that can escape the planner/builders:
`IndexError` (`list(...)[i]`), `StopIteration` (`next(ip_iter)`),
`KeyError` (`dict[hostname]`). -/
inductive PlanError
  | indexError
  | stopIteration
  | keyError
deriving DecidableEq

/-- The `ip_scheme` dict returned by `generate_ip_addresses`.
`interconnect_ips` is the insertion-ordered dict from pair key to the
`{'spine_ip': ..., 'leaf_ip': ...}` pair. -/
structure IpScheme where
  spine_loopbacks : List CIDR
  leaf_loopbacks : List CIDR
  vtep_loopbacks : List CIDR
  interconnect_ips : List (String × (CIDR × CIDR))
  mgmt_ips : List String
deriving DecidableEq

/-- The loopback loops: `for i in range(count): list(net.hosts())[i]`,
appending `f"{ip}/32"`.  Iterates indices `i, i+1, ...` while the second
argument counts the remaining iterations. -/
def loopbacksFrom (hs : List Nat) : Nat → Nat → Except PlanError (List CIDR)
  | _, 0 => .ok []
  | i, n + 1 =>
    match hs[i]? with
    | some a =>
      match loopbacksFrom hs (i + 1) n with
      | .ok t => .ok (⟨a, 32⟩ :: t)
      | .error e => .error e
    | none => .error .indexError

/-- One loopback generation block of `generate_ip_addresses`. -/
def loopbacksPhase (net : IPv4Net) (count : Nat) : Except PlanError (List CIDR) :=
  loopbacksFrom (hostsList net) 0 count

/-- The nested `for spine_idx in range(ns): for leaf_idx in range(nl)`
iteration order of the interconnect loop. -/
def pairList (ns nl : Nat) : List (Nat × Nat) :=
  (List.range ns).flatMap (fun s => (List.range nl).map (fun l => (s, l)))

/-- The interconnect loop: `ip_iter = iter(interconnect_net.hosts())`,
then for each pair `spine_ip = next(ip_iter); leaf_ip = next(ip_iter)`
recorded with /30 masks.  The iterator is embedded as the index cursor
`k` into the host list; `next` past the end raises `StopIteration`. -/
def allocInter (net : IPv4Net) : List (Nat × Nat) → Nat → Except PlanError (List (String × (CIDR × CIDR)))
  | [], _ => .ok []
  | (s, l) :: rest, k =>
    match (hostsList net)[k]?, (hostsList net)[k + 1]? with
    | some a, some b =>
      match allocInter net rest (k + 2) with
      | .ok tail => .ok ((pairKey s l, (⟨a, 30⟩, ⟨b, 30⟩)) :: tail)
      | .error e => .error e
    | _, _ => .error .stopIteration

/-- The manual-mode management loop over one role:
`config[role_mgmt_ips][f"{role}{i+1:02d}"]` for `i` in `range(count)`;
a missing hostname raises `KeyError`. -/
def manualMgmtList (m : List (String × String)) (role : String) : Nat → Nat → Except PlanError (List String)
  | _, 0 => .ok []
  | i, n + 1 =>
    match dictGet m (hostname2 role i) with
    | some v =>
      match manualMgmtList m role (i + 1) n with
      | .ok t => .ok (v :: t)
      | .error e => .error e
    | none => .error .keyError

/-- Auto-mode management list:
`f"{config['mgmt_base_ip']}.{config['mgmt_start'] + i}"` for
`i` in `range(spine_count + leaf_count)`. -/
def autoMgmtList (cfg : Config) : List String :=
  (List.range (cfg.spine_count + cfg.leaf_count)).map
    (fun i => cfg.mgmt_base_ip ++ "." ++ natRepr (cfg.mgmt_start + i))

/-- The management block of `generate_ip_addresses`: manual mode reads
the per-hostname dicts (spines first, then leaves), auto mode
concatenates base and final octet with no validation. -/
def mgmtPhase (cfg : Config) : Except PlanError (List String) :=
  match cfg.mgmt_mode with
  | .manual =>
    match manualMgmtList cfg.spine_mgmt_ips "spine" 0 cfg.spine_count with
    | .ok s =>
      match manualMgmtList cfg.leaf_mgmt_ips "leaf" 0 cfg.leaf_count with
      | .ok l => .ok (s ++ l)
      | .error e => .error e
    | .error e => .error e
  | .auto => .ok (autoMgmtList cfg)

/-- `InventoryGenerator.generate_ip_addresses`: spine loopbacks, leaf
loopbacks, VTEP loopbacks, interconnect pairs, management addresses, in
the source's statement order; the first exception aborts everything. -/
def generate_ip_addresses (cfg : Config) : Except PlanError IpScheme :=
  match loopbacksPhase cfg.spine_loopback_subnet cfg.spine_count with
  | .error e => .error e
  | .ok spine_loopbacks =>
    match loopbacksPhase cfg.leaf_loopback_subnet cfg.leaf_count with
    | .error e => .error e
    | .ok leaf_loopbacks =>
      match loopbacksPhase cfg.vtep_loopback_subnet cfg.leaf_count with
      | .error e => .error e
      | .ok vtep_loopbacks =>
        match allocInter cfg.interconnect_subnet_base (pairList cfg.spine_count cfg.leaf_count) 0 with
        | .error e => .error e
        | .ok interconnect_ips =>
          match mgmtPhase cfg with
          | .error e => .error e
          | .ok mgmt_ips =>
            .ok { spine_loopbacks := spine_loopbacks
                  leaf_loopbacks := leaf_loopbacks
                  vtep_loopbacks := vtep_loopbacks
                  interconnect_ips := interconnect_ips
                  mgmt_ips := mgmt_ips }

/-- One interface entry of a device record.  The Python dicts carry
different key sets per role, embedded as optional fields. -/
structure Iface where
  interface : String
  description : String
  ip : Option CIDR := none
  mode : Option String := none
  vlan : Option String := none
deriving DecidableEq

/-- Device record returned by `generate_spine_config`. -/
structure SpineRecord where
  ansible_host : String
  spine_id : Nat
  loopback0 : CIDR
  spine_interfaces : List Iface
deriving DecidableEq

/-- Device record returned by `generate_leaf_config`. -/
structure LeafRecord where
  ansible_host : String
  leaf_id : Nat
  loopback0 : CIDR
  vtep_loopback : CIDR
  leaf_interfaces : List Iface
deriving DecidableEq

/-- ExactMatch spine interface loop:
`for leaf_idx, interface_name in enumerate(interfaces): if leaf_idx < leaf_count: ...`;
entries at positions at or past `leaf_count` are skipped, the rest take
the spine-side interconnect address for their pair. -/
def spineExactIfaces (leafCount : Nat) (ics : List (String × (CIDR × CIDR))) (spine_idx : Nat) : Nat → List String → Except PlanError (List Iface)
  | _, [] => .ok []
  | leaf_idx, name :: rest =>
    if leaf_idx < leafCount then
      match dictGet ics (pairKey spine_idx leaf_idx) with
      | some ic =>
        match spineExactIfaces leafCount ics spine_idx (leaf_idx + 1) rest with
        | .ok t =>
          .ok ({ interface := name
                 description := "Link to " ++ hostname2 "leaf" leaf_idx
                 ip := some ic.1 } :: t)
        | .error e => .error e
      | none => .error .keyError
    else spineExactIfaces leafCount ics spine_idx (leaf_idx + 1) rest

/-- Sequential spine interface loop: running counter starting at
`spine_interface_start`, one entry per leaf index. -/
def spineSeqIfaces (ics : List (String × (CIDR × CIDR))) (spine_idx start : Nat) : Nat → Nat → Except PlanError (List Iface)
  | _, 0 => .ok []
  | leaf_idx, n + 1 =>
    match dictGet ics (pairKey spine_idx leaf_idx) with
    | some ic =>
      match spineSeqIfaces ics spine_idx start (leaf_idx + 1) n with
      | .ok t =>
        .ok ({ interface := "10GE1/0/" ++ natRepr (start + leaf_idx)
               description := "Link to " ++ hostname2 "leaf" leaf_idx
               ip := some ic.1 } :: t)
      | .error e => .error e
    | none => .error .keyError

/-- `InventoryGenerator.generate_spine_config`. -/
def generate_spine_config (spine_idx : Nat) (cfg : Config) (scheme : IpScheme) : Except PlanError SpineRecord :=
  let hostname := hostname2 "spine" spine_idx
  match (match cfg.mgmt_mode with
         | .manual =>
           match dictGet cfg.spine_mgmt_ips hostname with
           | some v => Except.ok v
           | none => Except.error PlanError.keyError
         | .auto =>
           match scheme.mgmt_ips[spine_idx]? with
           | some v => Except.ok v
           | none => Except.error PlanError.indexError) with
  | .error e => .error e
  | .ok mgmt_ip =>
    match scheme.spine_loopbacks[spine_idx]? with
    | none => .error .indexError
    | some loopback0 =>
      match (match cfg.interface_mapping_mode with
             | .exactMatch =>
               spineExactIfaces cfg.leaf_count scheme.interconnect_ips spine_idx 0
                 ((dictGet cfg.spine_interfaces hostname).getD [])
             | .sequential =>
               spineSeqIfaces scheme.interconnect_ips spine_idx cfg.spine_interface_start 0 cfg.leaf_count) with
      | .error e => .error e
      | .ok ifaces =>
        .ok { ansible_host := mgmt_ip
              spine_id := spine_idx + 1
              loopback0 := loopback0
              spine_interfaces := ifaces }

/-- ExactMatch leaf uplink loop:
`for spine_idx, interface_name in enumerate(interfaces): if spine_idx < spine_count: ...`
using the leaf-side interconnect address. -/
def leafExactIfaces (spineCount : Nat) (ics : List (String × (CIDR × CIDR))) (leaf_idx : Nat) : Nat → List String → Except PlanError (List Iface)
  | _, [] => .ok []
  | spine_idx, name :: rest =>
    if spine_idx < spineCount then
      match dictGet ics (pairKey spine_idx leaf_idx) with
      | some ic =>
        match leafExactIfaces spineCount ics leaf_idx (spine_idx + 1) rest with
        | .ok t =>
          .ok ({ interface := name
                 description := "Link to " ++ hostname2 "spine" spine_idx
                 ip := some ic.2 } :: t)
        | .error e => .error e
      | none => .error .keyError
    else leafExactIfaces spineCount ics leaf_idx (spine_idx + 1) rest

/-- Sequential leaf uplink loop: running counter starting at
`leaf_interface_start`, one entry per spine index. -/
def leafSeqIfaces (ics : List (String × (CIDR × CIDR))) (leaf_idx start : Nat) : Nat → Nat → Except PlanError (List Iface)
  | _, 0 => .ok []
  | spine_idx, n + 1 =>
    match dictGet ics (pairKey spine_idx leaf_idx) with
    | some ic =>
      match leafSeqIfaces ics leaf_idx start (spine_idx + 1) n with
      | .ok t =>
        .ok ({ interface := "10GE1/0/" ++ natRepr (start + spine_idx)
               description := "Link to " ++ hostname2 "spine" spine_idx
               ip := some ic.2 } :: t)
      | .error e => .error e
    | none => .error .keyError

/-- The access-port entry appended to a leaf's interface list. -/
def accessIface (name : String) (leaf_idx : Nat) : Iface :=
  { interface := name
    description := "Server Access"
    mode := some "access"
    vlan := some (natRepr (100 + leaf_idx)) }

/-- `InventoryGenerator.generate_leaf_config`.  In ExactMatch mode the
access entry is appended only when the supplied list is strictly longer
than `spine_count` (`if len(interfaces) > config['spine_count']`); in
Sequential mode it is always appended. -/
def generate_leaf_config (leaf_idx : Nat) (cfg : Config) (scheme : IpScheme) : Except PlanError LeafRecord :=
  let hostname := hostname2 "leaf" leaf_idx
  match (match cfg.mgmt_mode with
         | .manual =>
           match dictGet cfg.leaf_mgmt_ips hostname with
           | some v => Except.ok v
           | none => Except.error PlanError.keyError
         | .auto =>
           match scheme.mgmt_ips[cfg.spine_count + leaf_idx]? with
           | some v => Except.ok v
           | none => Except.error PlanError.indexError) with
  | .error e => .error e
  | .ok mgmt_ip =>
    match scheme.leaf_loopbacks[leaf_idx]? with
    | none => .error .indexError
    | some loopback0 =>
      match scheme.vtep_loopbacks[leaf_idx]? with
      | none => .error .indexError
      | some vtep_loopback =>
        match (match cfg.interface_mapping_mode with
               | .exactMatch =>
                 let interfaces := (dictGet cfg.leaf_interfaces hostname).getD []
                 match leafExactIfaces cfg.spine_count scheme.interconnect_ips leaf_idx 0 interfaces with
                 | .ok ups =>
                   Except.ok (ups ++
                     (if h : cfg.spine_count < interfaces.length then
                        [accessIface (interfaces.get ⟨cfg.spine_count, h⟩) leaf_idx]
                      else []))
                 | .error e => Except.error e
               | .sequential =>
                 match leafSeqIfaces scheme.interconnect_ips leaf_idx cfg.leaf_interface_start 0 cfg.spine_count with
                 | .ok ups =>
                   Except.ok (ups ++ [accessIface ("10GE1/0/" ++ cfg.leaf_access_interface) leaf_idx])
                 | .error e => Except.error e) with
        | .error e => .error e
        | .ok ifaces =>
          .ok { ansible_host := mgmt_ip
                leaf_id := leaf_idx + 1
                loopback0 := loopback0
                vtep_loopback := vtep_loopback
                leaf_interfaces := ifaces }

/-- The numeric addresses of the interconnect endpoints, spine side then
leaf side per pair, in dict insertion order. -/
def interAddrs : List (String × (CIDR × CIDR)) → List Nat
  | [] => []
  | e :: t => e.2.1.addr :: e.2.2.addr :: interAddrs t

/-- All on-subnet addresses of a plan: spine loopbacks, leaf loopbacks,
VTEP loopbacks, interconnect endpoints. -/
def planAddrs (s : IpScheme) : List Nat :=
  s.spine_loopbacks.map CIDR.addr ++ s.leaf_loopbacks.map CIDR.addr ++
    s.vtep_loopbacks.map CIDR.addr ++ interAddrs s.interconnect_ips

/-- Address-range disjointness of two IPv4 networks. -/
def netsDisjoint (n1 n2 : IPv4Net) : Prop :=
  n1.base + netSize n1 ≤ n2.base ∨ n2.base + netSize n2 ≤ n1.base

/-- The network address obtained by applying a mask of the given length
to an address: the containing `/maskLen` network. -/
def networkOf (a : Nat) (maskLen : Nat) : Nat :=
  a / 2 ^ (32 - maskLen) * 2 ^ (32 - maskLen)

/-- A string is a valid dotted-quad IPv4 address: four decimal
components, each at most 255.  Since decimal representation carries no
leading zeros, this coincides with the dotted quads Python's
`ipaddress` accepts. -/
def isValidIPv4 (s : String) : Prop :=
  ∃ a b c d : Nat, a ≤ 255 ∧ b ≤ 255 ∧ c ≤ 255 ∧ d ≤ 255 ∧
    s = natRepr a ++ "." ++ natRepr b ++ "." ++ natRepr c ++ "." ++ natRepr d

/-- Numeric value of a most-significant-first decimal digit list. -/
def decVal (ds : List Nat) : Nat := ds.foldl (fun a d => 10 * a + d) 0

/-- All spine-leaf pair keys resolvable in an interconnect dict. -/
def pairsComplete (ics : List (String × (CIDR × CIDR))) (ns nl : Nat) : Prop :=
  ∀ s l, s < ns → l < nl → ∃ p, dictGet ics (pairKey s l) = some p

/-- The documented default configuration: 2 spines, 2 leaves, loopback
subnets 10.255.1.0/24, 10.255.2.0/24, 10.255.3.0/24, interconnect base
10.1.0.0/16, sequential interfaces, auto management from 192.168.1.10. -/
def cfgW : Config :=
  { fabric_name := "spine_leaf_fabric"
    asn := "65000"
    spine_loopback_subnet := ⟨184484096, 24⟩
    leaf_loopback_subnet := ⟨184484352, 24⟩
    vtep_loopback_subnet := ⟨184484608, 24⟩
    interconnect_subnet_base := ⟨167837696, 16⟩
    spine_count := 2
    leaf_count := 2
    spine_interface_start := 1
    leaf_interface_start := 1
    leaf_access_interface := "48"
    interface_mapping_mode := .sequential
    spine_interfaces := []
    leaf_interfaces := []
    mgmt_mode := .auto
    spine_mgmt_ips := []
    leaf_mgmt_ips := []
    mgmt_base_ip := "192.168.1"
    mgmt_start := 10 }

/-- Like `cfgW` but with the leaf loopback subnet set to the very same
10.255.1.0/24 as the spine loopback subnet (each subnet individually
valid, with plenty of usable hosts). -/
def cfgC2 : Config := { cfgW with leaf_loopback_subnet := ⟨184484096, 24⟩ }

/-- Like `cfgW` but with a /30 interconnect base: only 2 usable hosts
for the 4 spine-leaf pairs. -/
def cfgX : Config := { cfgW with interconnect_subnet_base := ⟨167837696, 30⟩ }

/-- Like `cfgW` but in ExactMatch mode with a single supplied leaf
interface name for leaf01 (fewer than spine_count + 1 = 3). -/
def cfgE : Config :=
  { cfgW with
    interface_mapping_mode := .exactMatch
    leaf_interfaces := [("leaf01", ["10GE1/0/1"])] }

/-- A 1-spine 1-leaf ExactMatch configuration with no spine interface
entry at all and three supplied leaf names (more than spine_count + 1). -/
def cfgE9 : Config :=
  { cfgW with
    spine_count := 1
    leaf_count := 1
    interface_mapping_mode := .exactMatch
    spine_interfaces := []
    leaf_interfaces := [("leaf01", ["10GE1/0/7", "10GE1/0/8", "10GE1/0/9"])] }

/-- A 1-spine 1-leaf Manual-management configuration with both
hostnames present. -/
def cfgM : Config :=
  { cfgW with
    spine_count := 1
    leaf_count := 1
    mgmt_mode := .manual
    spine_mgmt_ips := [("spine01", "192.168.1.10")]
    leaf_mgmt_ips := [("leaf01", "192.168.1.11")] }

/-- Like `cfgM` but with the leaf management mapping empty. -/
def cfgMbad : Config := { cfgM with leaf_mgmt_ips := [] }

/-- Like `cfgW` but with management start octet 255, so the last of the
four devices gets final octet 258. -/
def cfgO : Config := { cfgW with mgmt_start := 255 }

/-! ### Decimal representation and string lemmas -/

/-- Every entry of a decimal digit list is a digit. -/
theorem decDigitsAux_lt10 : ∀ fuel n d, d ∈ decDigitsAux fuel n → d < 10
  | 0, n, d, h => by simp [decDigitsAux] at h
  | fuel + 1, n, d, h => by
    unfold decDigitsAux at h
    split at h
    · next h10 => simp only [List.mem_singleton] at h; omega
    · next h10 =>
      rw [List.mem_append] at h
      rcases h with h | h
      · exact decDigitsAux_lt10 fuel (n / 10) d h
      · simp only [List.mem_singleton] at h
        omega

/-- The decimal digit list of `n` evaluates back to `n`. -/
theorem decVal_decDigitsAux : ∀ fuel n, n < fuel → decVal (decDigitsAux fuel n) = n
  | 0, n, h => absurd h (Nat.not_lt_zero n)
  | fuel + 1, n, h => by
    unfold decDigitsAux
    split
    · next h10 => simp [decVal]
    · next h10 =>
      push_neg at h10
      have hdiv : n / 10 < fuel := by
        have h1 : n / 10 < n := Nat.div_lt_self (by omega) (by omega)
        omega
      have IH := decVal_decDigitsAux fuel (n / 10) hdiv
      rw [decVal, List.foldl_append]
      rw [decVal] at IH
      rw [IH]
      simp only [List.foldl_cons, List.foldl_nil]
      omega

/-- Digit-list correctness of `decDigits`. -/
theorem decVal_decDigits (n : Nat) : decVal (decDigits n) = n :=
  decVal_decDigitsAux (n + 1) n (Nat.lt_succ_self n)

/-- `Nat.digitChar` is injective on digits. -/
theorem digitChar_inj_lt10 : ∀ a, a < 10 → ∀ b, b < 10 → Nat.digitChar a = Nat.digitChar b → a = b := by
  decide

/-- `Nat.digitChar` never renders a digit as a dot. -/
theorem digitChar_ne_dot : ∀ d, d < 10 → Nat.digitChar d ≠ '.' := by decide

/-- Mapping `digitChar` over digit lists is injective. -/
theorem map_digitChar_inj : ∀ xs ys : List Nat, (∀ d ∈ xs, d < 10) → (∀ d ∈ ys, d < 10) →
    xs.map Nat.digitChar = ys.map Nat.digitChar → xs = ys
  | [], [], _, _, _ => rfl
  | [], _ :: _, _, _, h => by simp at h
  | _ :: _, [], _, _, h => by simp at h
  | x :: xs, y :: ys, hx, hy, h => by
    simp only [List.map_cons, List.cons.injEq] at h
    have hxy := digitChar_inj_lt10 x (hx x (by simp)) y (hy y (by simp)) h.1
    have ht := map_digitChar_inj xs ys (fun d hd => hx d (by simp [hd]))
      (fun d hd => hy d (by simp [hd])) h.2
    rw [hxy, ht]

/-- A `String` is determined by its character list. -/
theorem string_data_inj {s t : String} (h : s.data = t.data) : s = t := by
  cases s
  cases t
  exact congrArg String.mk h

/-- Decimal rendering of naturals is injective (Python `str`). -/
theorem natRepr_inj {a b : Nat} (h : natRepr a = natRepr b) : a = b := by
  have hd : (decDigits a).map Nat.digitChar = (decDigits b).map Nat.digitChar :=
    congrArg String.data h
  have heq := map_digitChar_inj _ _ (fun d hd => decDigitsAux_lt10 _ _ d hd)
    (fun d hd => decDigitsAux_lt10 _ _ d hd) hd
  have va := decVal_decDigits a
  have vb := decVal_decDigits b
  have heq' : decDigits a = decDigits b := heq
  rw [← va, ← vb, heq']

/-- Decimal renderings contain no dot character. -/
theorem natRepr_no_dot (n : Nat) : ∀ c ∈ (natRepr n).data, c ≠ '.' := by
  intro c hc
  simp only [natRepr] at hc
  rw [List.mem_map] at hc
  obtain ⟨d, hd, rfl⟩ := hc
  exact digitChar_ne_dot d (decDigitsAux_lt10 _ _ d hd)

/-- Two separator-terminated decompositions with separator-free prefixes
agree componentwise. -/
theorem sep_head_inj {sep : Char} : ∀ (as bs u v : List Char), (∀ c ∈ as, c ≠ sep) →
    (∀ c ∈ bs, c ≠ sep) → as ++ sep :: u = bs ++ sep :: v → as = bs ∧ u = v
  | [], [], u, v, _, _, h => by simp_all
  | [], b :: bs, u, v, _, hb, h => by
    simp only [List.nil_append, List.cons_append, List.cons.injEq] at h
    exact absurd h.1.symm (hb b (by simp))
  | a :: as, [], u, v, ha, _, h => by
    simp only [List.nil_append, List.cons_append, List.cons.injEq] at h
    exact absurd h.1 (ha a (by simp))
  | a :: as, b :: bs, u, v, ha, hb, h => by
    simp only [List.cons_append, List.cons.injEq] at h
    have ht := sep_head_inj as bs u v (fun c hc => ha c (by simp [hc]))
      (fun c hc => hb c (by simp [hc])) h.2
    exact ⟨by rw [h.1, ht.1], ht.2⟩

/-- The segment after the last separator is determined, when both final
segments are separator-free. -/
theorem sep_tail_inj {sep : Char} (xs ys p q : List Char) (hp : ∀ c ∈ p, c ≠ sep)
    (hq : ∀ c ∈ q, c ≠ sep) (h : xs ++ sep :: p = ys ++ sep :: q) : p = q := by
  have hrev : p.reverse ++ sep :: xs.reverse = q.reverse ++ sep :: ys.reverse := by
    have h2 := congrArg List.reverse h
    simpa [List.reverse_append, List.append_assoc] using h2
  have hh := sep_head_inj p.reverse q.reverse _ _
    (fun c hc => hp c (List.mem_reverse.mp hc)) (fun c hc => hq c (List.mem_reverse.mp hc)) hrev
  exact List.reverse_injective hh.1

/-! ### Host enumeration lemmas -/

/-- The host list has exactly `hostCount` entries. -/
theorem hostsList_length (net : IPv4Net) : (hostsList net).length = hostCount net := by
  simp [hostsList]

/-- Indexing the host list is `hostAddr` under the count bound. -/
theorem hostsList_getElem? (net : IPv4Net) (k : Nat) :
    (hostsList net)[k]? = if k < hostCount net then some (hostAddr net k) else none := by
  by_cases h : k < hostCount net
  · simp [hostsList, h]
  · rw [if_neg h]
    apply List.getElem?_eq_none
    rw [hostsList_length]
    omega

/-- Every usable host lies inside the network's address range. -/
theorem hostsList_mem_bounds {net : IPv4Net} {a : Nat} (h : a ∈ hostsList net) :
    net.base ≤ a ∧ a < net.base + netSize net := by
  simp only [hostsList, List.mem_map, List.mem_range] at h
  obtain ⟨k, hk, rfl⟩ := h
  unfold hostCount at hk
  unfold hostAddr
  split at hk <;> [rw [if_pos (by assumption)]; rw [if_neg (by assumption)]] <;> omega

/-- The host list has no duplicates. -/
theorem hostsList_nodup (net : IPv4Net) : (hostsList net).Nodup := by
  apply (List.nodup_map_iff_inj_on (List.nodup_range _)).mpr
  intro x _ y _ hxy
  unfold hostAddr at hxy
  split at hxy <;> omega

/-- The host list is in strictly ascending numeric order. -/
theorem hostsList_sorted (net : IPv4Net) : List.Pairwise (· < ·) (hostsList net) := by
  unfold hostsList
  refine List.Pairwise.map _ ?_ (List.pairwise_lt_range _)
  intro a b hab
  unfold hostAddr
  split <;> omega

/-! ### Loopback phase lemmas -/

/-- A successful loopback loop returns exactly the indexed segment of
the host list, each with a /32 mask. -/
theorem loopbacksFrom_ok_eq : ∀ (hs : List Nat) (n i : Nat) (out : List CIDR),
    loopbacksFrom hs i n = .ok out → out = ((hs.drop i).take n).map (fun a => (⟨a, 32⟩ : CIDR))
  | _, 0, _, out, h => by
    simp only [loopbacksFrom, Except.ok.injEq] at h
    subst h
    simp
  | hs, n + 1, i, out, h => by
    unfold loopbacksFrom at h
    cases hg : hs[i]? with
    | none =>
      simp only [hg] at h
      exact Except.noConfusion h
    | some a =>
      simp only [hg] at h
      cases hr : loopbacksFrom hs (i + 1) n with
      | error e =>
        simp only [hr] at h
        exact Except.noConfusion h
      | ok t =>
        simp only [hr, Except.ok.injEq] at h
        subst h
        obtain ⟨hi, ha⟩ := List.getElem?_eq_some_iff.mp hg
        rw [List.drop_eq_getElem_cons hi, List.take_succ_cons, List.map_cons, ha]
        rw [loopbacksFrom_ok_eq hs n (i + 1) t hr]

/-- A successful loopback loop of positive length certifies that the
indexed range lies inside the host list. -/
theorem loopbacksFrom_ok_le : ∀ (hs : List Nat) (n i : Nat) (out : List CIDR),
    loopbacksFrom hs i n = .ok out → n = 0 ∨ i + n ≤ hs.length
  | _, 0, _, _, _ => Or.inl rfl
  | hs, n + 1, i, out, h => by
    unfold loopbacksFrom at h
    cases hg : hs[i]? with
    | none =>
      simp only [hg] at h
      exact Except.noConfusion h
    | some a =>
      simp only [hg] at h
      cases hr : loopbacksFrom hs (i + 1) n with
      | error e =>
        simp only [hr] at h
        exact Except.noConfusion h
      | ok t =>
        have hi : i < hs.length := (List.getElem?_eq_some_iff.mp hg).1
        rcases loopbacksFrom_ok_le hs n (i + 1) t hr with h0 | hle
        · omega
        · omega

/-- The loopback loop succeeds whenever the subnet has enough hosts. -/
theorem loopbacksFrom_success : ∀ (hs : List Nat) (n i : Nat), i + n ≤ hs.length →
    ∃ out, loopbacksFrom hs i n = .ok out
  | _, 0, _, _ => ⟨[], rfl⟩
  | hs, n + 1, i, h => by
    have hi : i < hs.length := by omega
    obtain ⟨t, ht⟩ := loopbacksFrom_success hs n (i + 1) (by omega)
    refine ⟨⟨hs[i], 32⟩ :: t, ?_⟩
    unfold loopbacksFrom
    simp [List.getElem?_eq_getElem hi, ht]

/-- Index form of a successful loopback phase. -/
theorem loopbacksPhase_ok_getElem? {net : IPv4Net} {count : Nat} {out : List CIDR}
    (h : loopbacksPhase net count = .ok out) :
    out.length = count ∧ ∀ i, i < count → out[i]? = some ⟨hostAddr net i, 32⟩ := by
  have heq := loopbacksFrom_ok_eq _ _ _ _ h
  have hle := loopbacksFrom_ok_le _ _ _ _ h
  rw [List.drop_zero] at heq
  have hcnt : count ≤ (hostsList net).length := by
    rcases hle with h0 | h1
    · subst h0; omega
    · omega
  constructor
  · rw [heq]
    simp
    omega
  · intro i hi
    rw [heq]
    rw [List.getElem?_map, List.getElem?_take_of_lt hi, hostsList_getElem?]
    rw [hostsList_length] at hcnt
    rw [if_pos (by omega)]
    rfl

/-! ### Pair iteration lemmas -/

/-- Peeling the outer loop. -/
theorem pairList_succ (ns nl : Nat) :
    pairList (ns + 1) nl = pairList ns nl ++ (List.range nl).map (fun l => (ns, l)) := by
  unfold pairList
  rw [List.range_succ, List.flatMap_append]
  simp

/-- The nested loops make `ns * nl` iterations. -/
theorem pairList_length (ns nl : Nat) : (pairList ns nl).length = ns * nl := by
  induction ns with
  | zero => simp [pairList]
  | succ n ih =>
    rw [pairList_succ, List.length_append, ih]
    simp [Nat.succ_mul]

/-- Pair `(s, l)` is iteration number `s * nl + l` (spine-major order). -/
theorem pairList_getElem? : ∀ {ns nl s l : Nat}, s < ns → l < nl →
    (pairList ns nl)[s * nl + l]? = some (s, l) := by
  intro ns
  induction ns with
  | zero => intro nl s l hs; omega
  | succ n ih =>
    intro nl s l hs hl
    rw [pairList_succ]
    rcases Nat.lt_or_ge s n with h | h
    · rw [List.getElem?_append_left]
      · exact ih h hl
      · rw [pairList_length]
        have h1 : (s + 1) * nl ≤ n * nl := Nat.mul_le_mul_right nl h
        have h2 : s * nl + l < (s + 1) * nl := by rw [Nat.succ_mul]; omega
        omega
    · have hsn : s = n := by omega
      subst hsn
      rw [List.getElem?_append_right (by rw [pairList_length]; omega)]
      rw [pairList_length]
      have harith : s * nl + l - s * nl = l := by omega
      rw [harith, List.getElem?_map]
      simp [hl]

/-- Every in-range pair is iterated. -/
theorem pairList_mem {ns nl s l : Nat} (hs : s < ns) (hl : l < nl) :
    (s, l) ∈ pairList ns nl := by
  obtain ⟨hn, he⟩ := List.getElem?_eq_some_iff.mp (pairList_getElem? hs hl)
  exact he ▸ List.getElem_mem hn

/-! ### Interconnect allocation lemmas -/

/-- A successful allocation covers every pair. -/
theorem allocInter_ok_length (net : IPv4Net) : ∀ (pairs : List (Nat × Nat)) (k : Nat)
    (out : List (String × (CIDR × CIDR))), allocInter net pairs k = .ok out →
    out.length = pairs.length
  | [], _, out, h => by
    simp only [allocInter, Except.ok.injEq] at h
    subst h
    rfl
  | (s, l) :: rest, k, out, h => by
    unfold allocInter at h
    cases hg1 : (hostsList net)[k]? with
    | none =>
      simp only [hg1] at h
      exact Except.noConfusion h
    | some a =>
      cases hg2 : (hostsList net)[k + 1]? with
      | none =>
        simp only [hg1, hg2] at h
        exact Except.noConfusion h
      | some b =>
        simp only [hg1, hg2] at h
        cases hr : allocInter net rest (k + 2) with
        | error e =>
          simp only [hr] at h
          exact Except.noConfusion h
        | ok tail =>
          simp only [hr, Except.ok.injEq] at h
          subst h
          simp [allocInter_ok_length net rest (k + 2) tail hr]

/-- Pair number `j` of a successful allocation receives stream positions
`2j` and `2j+1` (relative to the cursor), spine side first, both /30. -/
theorem allocInter_ok_getElem? (net : IPv4Net) : ∀ (pairs : List (Nat × Nat)) (k : Nat)
    (out : List (String × (CIDR × CIDR))), allocInter net pairs k = .ok out →
    ∀ j p, pairs[j]? = some p →
      ∃ a b, (hostsList net)[k + 2 * j]? = some a ∧ (hostsList net)[k + 2 * j + 1]? = some b ∧
        out[j]? = some (pairKey p.1 p.2, (⟨a, 30⟩, ⟨b, 30⟩))
  | [], _, out, h => by
    intro j p hp
    simp at hp
  | (s, l) :: rest, k, out, h => by
    unfold allocInter at h
    cases hg1 : (hostsList net)[k]? with
    | none =>
      simp only [hg1] at h
      exact Except.noConfusion h
    | some a =>
      cases hg2 : (hostsList net)[k + 1]? with
      | none =>
        simp only [hg1, hg2] at h
        exact Except.noConfusion h
      | some b =>
        simp only [hg1, hg2] at h
        cases hr : allocInter net rest (k + 2) with
        | error e =>
          simp only [hr] at h
          exact Except.noConfusion h
        | ok tail =>
          simp only [hr, Except.ok.injEq] at h
          subst h
          intro j p hp
          cases j with
          | zero =>
            simp only [List.getElem?_cons_zero, Option.some.injEq] at hp
            subst hp
            refine ⟨a, b, ?_, ?_, ?_⟩
            · simpa using hg1
            · simpa using hg2
            · simp
          | succ j' =>
            simp only [List.getElem?_cons_succ] at hp
            obtain ⟨a', b', h1, h2, h3⟩ :=
              allocInter_ok_getElem? net rest (k + 2) tail hr j' p hp
            refine ⟨a', b', ?_, ?_, ?_⟩
            · have : k + 2 * (j' + 1) = k + 2 + 2 * j' := by omega
              rw [this]
              exact h1
            · have : k + 2 * (j' + 1) + 1 = k + 2 + 2 * j' + 1 := by omega
              rw [this]
              exact h2
            · simpa using h3

/-- The endpoint addresses of a successful allocation are exactly the
consumed segment of the host stream, in consumption order. -/
theorem allocInter_ok_interAddrs (net : IPv4Net) : ∀ (pairs : List (Nat × Nat)) (k : Nat)
    (out : List (String × (CIDR × CIDR))), allocInter net pairs k = .ok out →
    interAddrs out = ((hostsList net).drop k).take (2 * pairs.length)
  | [], _, out, h => by
    simp only [allocInter, Except.ok.injEq] at h
    subst h
    simp [interAddrs]
  | (s, l) :: rest, k, out, h => by
    unfold allocInter at h
    cases hg1 : (hostsList net)[k]? with
    | none =>
      simp only [hg1] at h
      exact Except.noConfusion h
    | some a =>
      cases hg2 : (hostsList net)[k + 1]? with
      | none =>
        simp only [hg1, hg2] at h
        exact Except.noConfusion h
      | some b =>
        simp only [hg1, hg2] at h
        cases hr : allocInter net rest (k + 2) with
        | error e =>
          simp only [hr] at h
          exact Except.noConfusion h
        | ok tail =>
          simp only [hr, Except.ok.injEq] at h
          subst h
          obtain ⟨hk1, ha⟩ := List.getElem?_eq_some_iff.mp hg1
          obtain ⟨hk2, hb⟩ := List.getElem?_eq_some_iff.mp hg2
          have hd1 : (hostsList net).drop k = a :: (hostsList net).drop (k + 1) := by
            rw [List.drop_eq_getElem_cons hk1, ha]
          have hd2 : (hostsList net).drop (k + 1) = b :: (hostsList net).drop (k + 2) := by
            rw [List.drop_eq_getElem_cons hk2, hb]
          have hlen : 2 * ((s, l) :: rest).length = 2 * rest.length + 2 := by
            simp
            omega
          rw [hlen, hd1, hd2]
          simp only [interAddrs, List.take_succ_cons]
          rw [allocInter_ok_interAddrs net rest (k + 2) tail hr]

/-- The keys of a successful allocation, in insertion order. -/
theorem allocInter_ok_keys (net : IPv4Net) : ∀ (pairs : List (Nat × Nat)) (k : Nat)
    (out : List (String × (CIDR × CIDR))), allocInter net pairs k = .ok out →
    out.map Prod.fst = pairs.map (fun p => pairKey p.1 p.2)
  | [], _, out, h => by
    simp only [allocInter, Except.ok.injEq] at h
    subst h
    rfl
  | (s, l) :: rest, k, out, h => by
    unfold allocInter at h
    cases hg1 : (hostsList net)[k]? with
    | none =>
      simp only [hg1] at h
      exact Except.noConfusion h
    | some a =>
      cases hg2 : (hostsList net)[k + 1]? with
      | none =>
        simp only [hg1, hg2] at h
        exact Except.noConfusion h
      | some b =>
        simp only [hg1, hg2] at h
        cases hr : allocInter net rest (k + 2) with
        | error e =>
          simp only [hr] at h
          exact Except.noConfusion h
        | ok tail =>
          simp only [hr, Except.ok.injEq] at h
          subst h
          simp [allocInter_ok_keys net rest (k + 2) tail hr]

/-- Allocation succeeds whenever the stream holds two addresses per
remaining pair. -/
theorem allocInter_success (net : IPv4Net) : ∀ (pairs : List (Nat × Nat)) (k : Nat),
    k + 2 * pairs.length ≤ (hostsList net).length →
    ∃ out, allocInter net pairs k = .ok out
  | [], _, _ => ⟨[], rfl⟩
  | (s, l) :: rest, k, h => by
    have hlen : ((s, l) :: rest).length = rest.length + 1 := rfl
    rw [hlen] at h
    have hk1 : k < (hostsList net).length := by omega
    have hk2 : k + 1 < (hostsList net).length := by omega
    obtain ⟨tail, ht⟩ := allocInter_success net rest (k + 2) (by omega)
    refine ⟨(pairKey s l, (⟨(hostsList net)[k], 30⟩, ⟨(hostsList net)[k + 1], 30⟩)) :: tail, ?_⟩
    unfold allocInter
    rw [List.getElem?_eq_getElem hk1, List.getElem?_eq_getElem hk2, ht]

/-- Allocation raises `StopIteration` when the stream is too short for
the (nonempty) remaining pair list. -/
theorem allocInter_fail (net : IPv4Net) : ∀ (pairs : List (Nat × Nat)) (k : Nat),
    pairs ≠ [] → (hostsList net).length < k + 2 * pairs.length →
    allocInter net pairs k = .error .stopIteration
  | [], _, hne, _ => absurd rfl hne
  | (s, l) :: rest, k, _, h => by
    have hlen : ((s, l) :: rest).length = rest.length + 1 := rfl
    rw [hlen] at h
    rcases Nat.lt_or_ge (k + 1) (hostsList net).length with hk | hk
    · have hrest : rest ≠ [] := by
        intro he
        subst he
        simp at h
        omega
      have hfail := allocInter_fail net rest (k + 2) hrest (by omega)
      unfold allocInter
      rw [List.getElem?_eq_getElem (by omega : k < (hostsList net).length),
        List.getElem?_eq_getElem hk, hfail]
    · unfold allocInter
      rw [(List.getElem?_eq_none hk : (hostsList net)[k + 1]? = none)]
      cases (hostsList net)[k]? <;> rfl

/-! ### Dict lemmas -/

/-- A key present among an association list's keys resolves to a value. -/
theorem dictGet_exists_of_mem_keys {α : Type} : ∀ (m : List (String × α)) (k : String),
    k ∈ m.map Prod.fst → ∃ v, dictGet m k = some v
  | [], k, h => by simp at h
  | (k', v) :: t, k, h => by
    by_cases hk : k' = k
    · exact ⟨v, by simp [dictGet, hk]⟩
    · simp only [List.map_cons, List.mem_cons] at h
      rcases h with h | h
      · exact absurd h.symm hk
      · obtain ⟨w, hw⟩ := dictGet_exists_of_mem_keys t k h
        exact ⟨w, by simp [dictGet, hk, hw]⟩

/-! ### Management phase lemmas -/

/-- A successful manual management loop has one (verbatim) entry per
device, in index order. -/
theorem manualMgmtList_ok_getElem? : ∀ (m : List (String × String)) (role : String) (n i : Nat)
    (out : List String), manualMgmtList m role i n = .ok out →
    out.length = n ∧ ∀ j, j < n → ∃ v, dictGet m (hostname2 role (i + j)) = some v ∧ out[j]? = some v
  | _, _, 0, _, out, h => by
    simp only [manualMgmtList, Except.ok.injEq] at h
    subst h
    exact ⟨rfl, by omega⟩
  | m, role, n + 1, i, out, h => by
    unfold manualMgmtList at h
    cases hg : dictGet m (hostname2 role i) with
    | none =>
      simp only [hg] at h
      exact Except.noConfusion h
    | some v =>
      simp only [hg] at h
      cases hr : manualMgmtList m role (i + 1) n with
      | error e =>
        simp only [hr] at h
        exact Except.noConfusion h
      | ok t =>
        simp only [hr, Except.ok.injEq] at h
        subst h
        obtain ⟨hlen, hidx⟩ := manualMgmtList_ok_getElem? m role n (i + 1) t hr
        refine ⟨by simp [hlen], ?_⟩
        intro j hj
        cases j with
        | zero => exact ⟨v, by simpa using hg, by simp⟩
        | succ j' =>
          obtain ⟨w, hw1, hw2⟩ := hidx j' (by omega)
          refine ⟨w, ?_, by simpa using hw2⟩
          have : i + (j' + 1) = i + 1 + j' := by omega
          rw [this]
          exact hw1

/-- The manual management loop succeeds when every hostname resolves. -/
theorem manualMgmtList_success : ∀ (m : List (String × String)) (role : String) (n i : Nat),
    (∀ j, j < n → dictGet m (hostname2 role (i + j)) ≠ none) →
    ∃ out, manualMgmtList m role i n = .ok out
  | _, _, 0, _, _ => ⟨[], rfl⟩
  | m, role, n + 1, i, hall => by
    cases hg : dictGet m (hostname2 role i) with
    | none => exact absurd (by simpa using hg) (hall 0 (by omega))
    | some v =>
      obtain ⟨t, ht⟩ := manualMgmtList_success m role n (i + 1)
        (fun j hj => by
          have := hall (j + 1) (by omega)
          have harith : i + (j + 1) = i + 1 + j := by omega
          rw [harith] at this
          exact this)
      refine ⟨v :: t, ?_⟩
      unfold manualMgmtList
      rw [hg, ht]

/-- The manual management loop stops with `KeyError` when any iterated
hostname is missing from the supplied mapping. -/
theorem manualMgmtList_fail : ∀ (m : List (String × String)) (role : String) (n i : Nat),
    (∃ j, j < n ∧ dictGet m (hostname2 role (i + j)) = none) →
    manualMgmtList m role i n = .error .keyError
  | _, _, 0, _, h => by omega
  | m, role, n + 1, i, h => by
    obtain ⟨j, hj, hnone⟩ := h
    cases hg : dictGet m (hostname2 role i) with
    | none =>
      unfold manualMgmtList
      rw [hg]
    | some v =>
      have hj0 : j ≠ 0 := by
        intro he
        subst he
        simp only [Nat.add_zero] at hnone
        rw [hnone] at hg
        exact Option.noConfusion hg
      have hrec := manualMgmtList_fail m role n (i + 1)
        ⟨j - 1, by omega, by
          have : i + 1 + (j - 1) = i + j := by omega
          rw [this]
          exact hnone⟩
      unfold manualMgmtList
      rw [hg, hrec]

/-- Auto mode never fails and produces the concatenated strings. -/
theorem mgmtPhase_auto {cfg : Config} (h : cfg.mgmt_mode = .auto) :
    mgmtPhase cfg = .ok (autoMgmtList cfg) := by
  unfold mgmtPhase
  rw [h]

/-- Inversion of a successful manual management phase. -/
theorem mgmtPhase_manual_ok {cfg : Config} {out : List String} (hmode : cfg.mgmt_mode = .manual)
    (h : mgmtPhase cfg = .ok out) :
    ∃ s l, manualMgmtList cfg.spine_mgmt_ips "spine" 0 cfg.spine_count = .ok s ∧
      manualMgmtList cfg.leaf_mgmt_ips "leaf" 0 cfg.leaf_count = .ok l ∧ out = s ++ l := by
  unfold mgmtPhase at h
  rw [hmode] at h
  cases hs : manualMgmtList cfg.spine_mgmt_ips "spine" 0 cfg.spine_count with
  | error e =>
    simp only [hs] at h
    exact Except.noConfusion h
  | ok s =>
    simp only [hs] at h
    cases hl : manualMgmtList cfg.leaf_mgmt_ips "leaf" 0 cfg.leaf_count with
    | error e =>
      simp only [hl] at h
      exact Except.noConfusion h
    | ok l =>
      simp only [hl, Except.ok.injEq] at h
      exact ⟨s, l, rfl, rfl, h.symm⟩

/-- The only exception the manual management loop raises is `KeyError`. -/
theorem manualMgmtList_error_keyError : ∀ (m : List (String × String)) (role : String)
    (n i : Nat) (e : PlanError), manualMgmtList m role i n = .error e → e = .keyError
  | _, _, 0, _, _, h => by
    simp only [manualMgmtList] at h
    exact Except.noConfusion h
  | m, role, n + 1, i, e, h => by
    unfold manualMgmtList at h
    cases hg : dictGet m (hostname2 role i) with
    | none =>
      simp only [hg, Except.error.injEq] at h
      exact h.symm
    | some v =>
      simp only [hg] at h
      cases hr : manualMgmtList m role (i + 1) n with
      | error e' =>
        simp only [hr, Except.error.injEq] at h
        exact h ▸ manualMgmtList_error_keyError m role n (i + 1) e' hr
      | ok t =>
        simp only [hr] at h
        exact Except.noConfusion h

/-- A missing spine or leaf hostname makes the whole manual management
phase fail with `KeyError`. -/
theorem mgmtPhase_manual_fail {cfg : Config} (hmode : cfg.mgmt_mode = .manual)
    (h : (∃ j, j < cfg.spine_count ∧ dictGet cfg.spine_mgmt_ips (hostname2 "spine" j) = none) ∨
         (∃ j, j < cfg.leaf_count ∧ dictGet cfg.leaf_mgmt_ips (hostname2 "leaf" j) = none)) :
    mgmtPhase cfg = .error .keyError := by
  unfold mgmtPhase
  rw [hmode]
  rcases h with h | h
  · have hfail := manualMgmtList_fail cfg.spine_mgmt_ips "spine" cfg.spine_count 0 (by simpa using h)
    simp only [hfail]
  · cases hs : manualMgmtList cfg.spine_mgmt_ips "spine" 0 cfg.spine_count with
    | error e =>
      simp only [hs]
      rw [manualMgmtList_error_keyError _ _ _ _ _ hs]
    | ok s =>
      simp only [hs]
      have hfail := manualMgmtList_fail cfg.leaf_mgmt_ips "leaf" cfg.leaf_count 0 (by simpa using h)
      simp only [hfail]

/-! ### Plan assembly lemmas -/

/-- Inversion: a successful plan decomposes into its five successful
phases. -/
theorem gen_ok_inv {cfg : Config} {scheme : IpScheme}
    (h : generate_ip_addresses cfg = .ok scheme) :
    loopbacksPhase cfg.spine_loopback_subnet cfg.spine_count = .ok scheme.spine_loopbacks ∧
    loopbacksPhase cfg.leaf_loopback_subnet cfg.leaf_count = .ok scheme.leaf_loopbacks ∧
    loopbacksPhase cfg.vtep_loopback_subnet cfg.leaf_count = .ok scheme.vtep_loopbacks ∧
    allocInter cfg.interconnect_subnet_base (pairList cfg.spine_count cfg.leaf_count) 0 =
      .ok scheme.interconnect_ips ∧
    mgmtPhase cfg = .ok scheme.mgmt_ips := by
  unfold generate_ip_addresses at h
  cases h1 : loopbacksPhase cfg.spine_loopback_subnet cfg.spine_count with
  | error e =>
    simp only [h1] at h
    exact Except.noConfusion h
  | ok sl =>
    simp only [h1] at h
    cases h2 : loopbacksPhase cfg.leaf_loopback_subnet cfg.leaf_count with
    | error e =>
      simp only [h2] at h
      exact Except.noConfusion h
    | ok ll =>
      simp only [h2] at h
      cases h3 : loopbacksPhase cfg.vtep_loopback_subnet cfg.leaf_count with
      | error e =>
        simp only [h3] at h
        exact Except.noConfusion h
      | ok vl =>
        simp only [h3] at h
        cases h4 : allocInter cfg.interconnect_subnet_base
            (pairList cfg.spine_count cfg.leaf_count) 0 with
        | error e =>
          simp only [h4] at h
          exact Except.noConfusion h
        | ok ic =>
          simp only [h4] at h
          cases h5 : mgmtPhase cfg with
          | error e =>
            simp only [h5] at h
            exact Except.noConfusion h
          | ok mg =>
            simp only [h5, Except.ok.injEq] at h
            subst h
            exact ⟨rfl, rfl, rfl, rfl, rfl⟩

/-- Assembly: five successful phases make a successful plan. -/
theorem gen_ok_build {cfg : Config} {sl ll vl : List CIDR}
    {ic : List (String × (CIDR × CIDR))} {mg : List String}
    (h1 : loopbacksPhase cfg.spine_loopback_subnet cfg.spine_count = .ok sl)
    (h2 : loopbacksPhase cfg.leaf_loopback_subnet cfg.leaf_count = .ok ll)
    (h3 : loopbacksPhase cfg.vtep_loopback_subnet cfg.leaf_count = .ok vl)
    (h4 : allocInter cfg.interconnect_subnet_base (pairList cfg.spine_count cfg.leaf_count) 0 = .ok ic)
    (h5 : mgmtPhase cfg = .ok mg) :
    generate_ip_addresses cfg = .ok ⟨sl, ll, vl, ic, mg⟩ := by
  unfold generate_ip_addresses
  rw [h1, h2, h3, h4, h5]

/-- The planner succeeds under the capacity preconditions (given a
resolvable management configuration). -/
theorem gen_success {cfg : Config}
    (h1 : cfg.spine_count ≤ hostCount cfg.spine_loopback_subnet)
    (h2 : cfg.leaf_count ≤ hostCount cfg.leaf_loopback_subnet)
    (h3 : cfg.leaf_count ≤ hostCount cfg.vtep_loopback_subnet)
    (h4 : 2 * (cfg.spine_count * cfg.leaf_count) ≤ hostCount cfg.interconnect_subnet_base)
    (h5 : ∃ m, mgmtPhase cfg = .ok m) :
    ∃ scheme, generate_ip_addresses cfg = .ok scheme := by
  obtain ⟨sl, hsl⟩ := loopbacksFrom_success (hostsList cfg.spine_loopback_subnet)
    cfg.spine_count 0 (by rw [hostsList_length]; omega)
  obtain ⟨ll, hll⟩ := loopbacksFrom_success (hostsList cfg.leaf_loopback_subnet)
    cfg.leaf_count 0 (by rw [hostsList_length]; omega)
  obtain ⟨vl, hvl⟩ := loopbacksFrom_success (hostsList cfg.vtep_loopback_subnet)
    cfg.leaf_count 0 (by rw [hostsList_length]; omega)
  obtain ⟨ic, hic⟩ := allocInter_success cfg.interconnect_subnet_base
    (pairList cfg.spine_count cfg.leaf_count) 0
    (by rw [hostsList_length, pairList_length]; omega)
  obtain ⟨mg, hmg⟩ := h5
  exact ⟨_, gen_ok_build hsl hll hvl hic hmg⟩

/-- A successful plan resolves every spine-leaf pair key. -/
theorem gen_ok_pairsComplete {cfg : Config} {scheme : IpScheme}
    (h : generate_ip_addresses cfg = .ok scheme) :
    pairsComplete scheme.interconnect_ips cfg.spine_count cfg.leaf_count := by
  intro s l hs hl
  have hkeys := allocInter_ok_keys _ _ _ _ (gen_ok_inv h).2.2.2.1
  apply dictGet_exists_of_mem_keys
  rw [hkeys]
  exact List.mem_map_of_mem _ (pairList_mem hs hl)

/-- A successful plan's interconnect dict has one entry per pair, and
entry number `s * leaf_count + l` is pair `(s, l)` holding stream
positions `2k` and `2k+1` where `k = s * leaf_count + l`. -/
theorem gen_ok_interconnect {cfg : Config} {scheme : IpScheme}
    (h : generate_ip_addresses cfg = .ok scheme) {s l : Nat}
    (hs : s < cfg.spine_count) (hl : l < cfg.leaf_count) :
    scheme.interconnect_ips.length = cfg.spine_count * cfg.leaf_count ∧
    ∃ a b, (hostsList cfg.interconnect_subnet_base)[2 * (s * cfg.leaf_count + l)]? = some a ∧
      (hostsList cfg.interconnect_subnet_base)[2 * (s * cfg.leaf_count + l) + 1]? = some b ∧
      scheme.interconnect_ips[s * cfg.leaf_count + l]? = some (pairKey s l, (⟨a, 30⟩, ⟨b, 30⟩)) := by
  have halloc := (gen_ok_inv h).2.2.2.1
  constructor
  · rw [allocInter_ok_length _ _ _ _ halloc, pairList_length]
  · obtain ⟨a, b, h1, h2, h3⟩ := allocInter_ok_getElem? _ _ _ _ halloc
      (s * cfg.leaf_count + l) (s, l) (pairList_getElem? hs hl)
    refine ⟨a, b, ?_, ?_, h3⟩
    · simpa using h1
    · simpa using h2

/-- A successful plan's loopback lists, in index form. -/
theorem gen_ok_loopbacks {cfg : Config} {scheme : IpScheme}
    (h : generate_ip_addresses cfg = .ok scheme) :
    (scheme.spine_loopbacks.length = cfg.spine_count ∧
      ∀ i, i < cfg.spine_count →
        scheme.spine_loopbacks[i]? = some ⟨hostAddr cfg.spine_loopback_subnet i, 32⟩) ∧
    (scheme.leaf_loopbacks.length = cfg.leaf_count ∧
      ∀ i, i < cfg.leaf_count →
        scheme.leaf_loopbacks[i]? = some ⟨hostAddr cfg.leaf_loopback_subnet i, 32⟩) ∧
    (scheme.vtep_loopbacks.length = cfg.leaf_count ∧
      ∀ i, i < cfg.leaf_count →
        scheme.vtep_loopbacks[i]? = some ⟨hostAddr cfg.vtep_loopback_subnet i, 32⟩) :=
  ⟨loopbacksPhase_ok_getElem? (gen_ok_inv h).1,
   loopbacksPhase_ok_getElem? (gen_ok_inv h).2.1,
   loopbacksPhase_ok_getElem? (gen_ok_inv h).2.2.1⟩

/-! ### Device builder lemmas (ExactMatch mode) -/

/-- The leaf uplink loop never fails when the plan resolves all pairs;
it emits one entry per supplied name whose position is below
`spine_count`, skipping the rest. -/
theorem leafExactIfaces_ok {spineCount nl : Nat} {ics : List (String × (CIDR × CIDR))}
    {leaf_idx : Nat} (hcomp : pairsComplete ics spineCount nl) (hl : leaf_idx < nl) :
    ∀ (L : List String) (idx : Nat), ∃ out,
      leafExactIfaces spineCount ics leaf_idx idx L = .ok out ∧
      out.length = min L.length (spineCount - idx) := by
  intro L
  induction L with
  | nil => exact fun idx => ⟨[], rfl, by simp⟩
  | cons name rest ih =>
    intro idx
    by_cases hidx : idx < spineCount
    · obtain ⟨p, hp⟩ := hcomp idx leaf_idx hidx hl
      obtain ⟨t, ht, hlen⟩ := ih (idx + 1)
      refine ⟨({ interface := name
                 description := "Link to " ++ hostname2 "spine" idx
                 ip := some p.2 } : Iface) :: t, ?_, ?_⟩
      · unfold leafExactIfaces
        rw [if_pos hidx]
        simp only [hp, ht]
      · simp only [List.length_cons, hlen]
        omega
    · obtain ⟨t, ht, hlen⟩ := ih (idx + 1)
      refine ⟨t, ?_, ?_⟩
      · unfold leafExactIfaces
        rw [if_neg hidx, ht]
      · simp only [List.length_cons, hlen]
        omega

/-- The spine interface loop analogue. -/
theorem spineExactIfaces_ok {ns leafCount : Nat} {ics : List (String × (CIDR × CIDR))}
    {spine_idx : Nat} (hcomp : pairsComplete ics ns leafCount) (hs : spine_idx < ns) :
    ∀ (L : List String) (idx : Nat), ∃ out,
      spineExactIfaces leafCount ics spine_idx idx L = .ok out ∧
      out.length = min L.length (leafCount - idx) := by
  intro L
  induction L with
  | nil => exact fun idx => ⟨[], rfl, by simp⟩
  | cons name rest ih =>
    intro idx
    by_cases hidx : idx < leafCount
    · obtain ⟨p, hp⟩ := hcomp spine_idx idx hs hidx
      obtain ⟨t, ht, hlen⟩ := ih (idx + 1)
      refine ⟨({ interface := name
                 description := "Link to " ++ hostname2 "leaf" idx
                 ip := some p.1 } : Iface) :: t, ?_, ?_⟩
      · unfold spineExactIfaces
        rw [if_pos hidx]
        simp only [hp, ht]
      · simp only [List.length_cons, hlen]
        omega
    · obtain ⟨t, ht, hlen⟩ := ih (idx + 1)
      refine ⟨t, ?_, ?_⟩
      · unfold spineExactIfaces
        rw [if_neg hidx, ht]
      · simp only [List.length_cons, hlen]
        omega

/-- The management address of leaf `leaf_idx` always resolves when the
plan itself succeeded. -/
theorem leaf_mgmt_resolves {cfg : Config} {scheme : IpScheme}
    (hplan : generate_ip_addresses cfg = .ok scheme) (hl : leaf_idx < cfg.leaf_count) :
    ∃ v, (match cfg.mgmt_mode with
          | .manual =>
            match dictGet cfg.leaf_mgmt_ips (hostname2 "leaf" leaf_idx) with
            | some v => Except.ok v
            | none => Except.error PlanError.keyError
          | .auto =>
            match scheme.mgmt_ips[cfg.spine_count + leaf_idx]? with
            | some v => Except.ok v
            | none => Except.error PlanError.indexError) = Except.ok v := by
  have hmg := (gen_ok_inv hplan).2.2.2.2
  cases hm : cfg.mgmt_mode with
  | manual =>
    obtain ⟨s, l, hsok, hlok, _⟩ := mgmtPhase_manual_ok hm hmg
    obtain ⟨v, hv, _⟩ := (manualMgmtList_ok_getElem? _ _ _ _ _ hlok).2 leaf_idx hl
    rw [Nat.zero_add] at hv
    exact ⟨v, by rw [hv]⟩
  | auto =>
    rw [mgmtPhase_auto hm] at hmg
    have hlen : scheme.mgmt_ips.length = cfg.spine_count + cfg.leaf_count := by
      have : scheme.mgmt_ips = autoMgmtList cfg := by
        injection hmg with h
        exact h.symm
      rw [this]
      simp [autoMgmtList]
    have hidx : cfg.spine_count + leaf_idx < scheme.mgmt_ips.length := by omega
    exact ⟨_, by rw [List.getElem?_eq_getElem hidx]⟩

/-- The management address of spine `spine_idx` always resolves when the
plan itself succeeded. -/
theorem spine_mgmt_resolves {cfg : Config} {scheme : IpScheme}
    (hplan : generate_ip_addresses cfg = .ok scheme) (hs : spine_idx < cfg.spine_count) :
    ∃ v, (match cfg.mgmt_mode with
          | .manual =>
            match dictGet cfg.spine_mgmt_ips (hostname2 "spine" spine_idx) with
            | some v => Except.ok v
            | none => Except.error PlanError.keyError
          | .auto =>
            match scheme.mgmt_ips[spine_idx]? with
            | some v => Except.ok v
            | none => Except.error PlanError.indexError) = Except.ok v := by
  have hmg := (gen_ok_inv hplan).2.2.2.2
  cases hm : cfg.mgmt_mode with
  | manual =>
    obtain ⟨s, l, hsok, hlok, _⟩ := mgmtPhase_manual_ok hm hmg
    obtain ⟨v, hv, _⟩ := (manualMgmtList_ok_getElem? _ _ _ _ _ hsok).2 spine_idx hs
    rw [Nat.zero_add] at hv
    exact ⟨v, by rw [hv]⟩
  | auto =>
    rw [mgmtPhase_auto hm] at hmg
    have hlen : scheme.mgmt_ips.length = cfg.spine_count + cfg.leaf_count := by
      have : scheme.mgmt_ips = autoMgmtList cfg := by
        injection hmg with h
        exact h.symm
      rw [this]
      simp [autoMgmtList]
    have hidx : spine_idx < scheme.mgmt_ips.length := by omega
    exact ⟨_, by rw [List.getElem?_eq_getElem hidx]⟩

/-- Full characterization of `generate_leaf_config` in ExactMatch mode
under a successful plan: it always succeeds; the uplinks are one entry
per supplied name at positions below `spine_count`, and the access entry
is appended exactly when the supplied list is strictly longer than
`spine_count`, taken from position `spine_count`. -/
theorem generate_leaf_config_exact {cfg : Config} {scheme : IpScheme} {leaf_idx : Nat}
    (hplan : generate_ip_addresses cfg = .ok scheme)
    (hmode : cfg.interface_mapping_mode = .exactMatch)
    (hl : leaf_idx < cfg.leaf_count) :
    ∃ r ups,
      generate_leaf_config leaf_idx cfg scheme = .ok r ∧
      ups.length = min ((dictGet cfg.leaf_interfaces (hostname2 "leaf" leaf_idx)).getD []).length
        cfg.spine_count ∧
      r.leaf_interfaces = ups ++
        (if h : cfg.spine_count <
            ((dictGet cfg.leaf_interfaces (hostname2 "leaf" leaf_idx)).getD []).length then
           [accessIface
             (((dictGet cfg.leaf_interfaces (hostname2 "leaf" leaf_idx)).getD []).get
               ⟨cfg.spine_count, h⟩) leaf_idx]
         else []) := by
  obtain ⟨v, hv⟩ := leaf_mgmt_resolves hplan hl
  have hlb := (gen_ok_loopbacks hplan).2.1.2 leaf_idx hl
  have hvt := (gen_ok_loopbacks hplan).2.2.2 leaf_idx hl
  have hcomp := gen_ok_pairsComplete hplan
  obtain ⟨ups, hups, hlen⟩ := leafExactIfaces_ok hcomp hl
    ((dictGet cfg.leaf_interfaces (hostname2 "leaf" leaf_idx)).getD []) 0
  refine ⟨{ ansible_host := v
            leaf_id := leaf_idx + 1
            loopback0 := ⟨hostAddr cfg.leaf_loopback_subnet leaf_idx, 32⟩
            vtep_loopback := ⟨hostAddr cfg.vtep_loopback_subnet leaf_idx, 32⟩
            leaf_interfaces := ups ++
              (if h : cfg.spine_count <
                  ((dictGet cfg.leaf_interfaces (hostname2 "leaf" leaf_idx)).getD []).length then
                 [accessIface
                   (((dictGet cfg.leaf_interfaces (hostname2 "leaf" leaf_idx)).getD []).get
                     ⟨cfg.spine_count, h⟩) leaf_idx]
               else []) }, ups, ?_, by simpa using hlen, rfl⟩
  unfold generate_leaf_config
  simp only [hmode, hv, hlb, hvt, hups]

/-- Full characterization of `generate_spine_config` in ExactMatch mode
under a successful plan. -/
theorem generate_spine_config_exact {cfg : Config} {scheme : IpScheme} {spine_idx : Nat}
    (hplan : generate_ip_addresses cfg = .ok scheme)
    (hmode : cfg.interface_mapping_mode = .exactMatch)
    (hs : spine_idx < cfg.spine_count) :
    ∃ r ups,
      generate_spine_config spine_idx cfg scheme = .ok r ∧
      ups.length = min ((dictGet cfg.spine_interfaces (hostname2 "spine" spine_idx)).getD []).length
        cfg.leaf_count ∧
      r.spine_interfaces = ups := by
  obtain ⟨v, hv⟩ := spine_mgmt_resolves hplan hs
  have hlb := (gen_ok_loopbacks hplan).1.2 spine_idx hs
  have hcomp := gen_ok_pairsComplete hplan
  obtain ⟨ups, hups, hlen⟩ := spineExactIfaces_ok hcomp hs
    ((dictGet cfg.spine_interfaces (hostname2 "spine" spine_idx)).getD []) 0
  refine ⟨{ ansible_host := v
            spine_id := spine_idx + 1
            loopback0 := ⟨hostAddr cfg.spine_loopback_subnet spine_idx, 32⟩
            spine_interfaces := ups }, ups, ?_, by simpa using hlen, rfl⟩
  unfold generate_spine_config
  simp only [hmode, hv, hlb, hups]

/-! ### Remaining shared helpers -/

/-- Initial segments of the host list have no duplicates. -/
theorem take_hostsList_nodup (net : IPv4Net) (n : Nat) : ((hostsList net).take n).Nodup :=
  ((hostsList net).take_sublist n).nodup (hostsList_nodup net)

/-- Host segments of range-disjoint networks are element-disjoint. -/
theorem takes_disjoint {n1 n2 : IPv4Net} (hd : netsDisjoint n1 n2) {a b : Nat} :
    ∀ x, x ∈ (hostsList n1).take a → x ∈ (hostsList n2).take b → False := by
  intro x h1 h2
  have b1 := hostsList_mem_bounds (List.mem_of_mem_take h1)
  have b2 := hostsList_mem_bounds (List.mem_of_mem_take h2)
  unfold netsDisjoint at hd
  rcases hd with h | h <;> omega

/-- Loopback lists project onto initial host segments. -/
theorem map_addr_of_loopbacks {hs : List Nat} {n i : Nat} {out : List CIDR}
    (h : loopbacksFrom hs i n = .ok out) : out.map CIDR.addr = (hs.drop i).take n := by
  rw [loopbacksFrom_ok_eq _ _ _ _ h, List.map_map]
  have hid : (CIDR.addr ∘ fun a => ({ addr := a, maskLen := 32 } : CIDR)) = id := rfl
  rw [hid, List.map_id]

/-- Auto-generated management strings are pairwise distinct: the base is
shared, the dot-free decimal suffixes differ. -/
theorem autoMgmtList_nodup (cfg : Config) : (autoMgmtList cfg).Nodup := by
  unfold autoMgmtList
  apply (List.nodup_map_iff_inj_on (List.nodup_range _)).mpr
  intro x _ y _ hxy
  have hdata := congrArg String.data hxy
  simp only [String.data_append] at hdata
  rw [List.append_assoc, List.append_assoc] at hdata
  have htail := List.append_cancel_left hdata
  simp only [List.singleton_append, List.cons.injEq] at htail
  exact Nat.add_left_cancel (natRepr_inj (string_data_inj htail.2))

/-- Concatenating a base with a final octet above 255 can never form a
valid dotted quad: the segment after the last dot is the decimal form of
the octet, and a valid quad's last segment denotes at most 255. -/
theorem concat_overflow_invalid (base : String) (num : Nat) (hnum : 255 < num) :
    ¬ isValidIPv4 (base ++ "." ++ natRepr num) := by
  rintro ⟨a, b, c, d, _, _, _, hd255, heq⟩
  have hdata := congrArg String.data heq
  simp only [String.data_append] at hdata
  rw [List.append_assoc] at hdata
  rw [List.append_assoc, List.append_assoc, List.append_assoc] at hdata
  rw [← List.append_assoc, ← List.append_assoc, ← List.append_assoc] at hdata
  rw [List.append_assoc] at hdata
  simp only [List.singleton_append] at hdata
  have hlast := sep_tail_inj _ _ _ _ (natRepr_no_dot num) (natRepr_no_dot d) hdata
  have : num = d := natRepr_inj (string_data_inj hlast)
  omega

/-- A plan aborts with the interconnect loop's exception when the three
loopback phases succeed but allocation fails. -/
theorem gen_fail_interconnect {cfg : Config} {sl ll vl : List CIDR} {e : PlanError}
    (h1 : loopbacksPhase cfg.spine_loopback_subnet cfg.spine_count = .ok sl)
    (h2 : loopbacksPhase cfg.leaf_loopback_subnet cfg.leaf_count = .ok ll)
    (h3 : loopbacksPhase cfg.vtep_loopback_subnet cfg.leaf_count = .ok vl)
    (h4 : allocInter cfg.interconnect_subnet_base (pairList cfg.spine_count cfg.leaf_count) 0 =
      .error e) :
    generate_ip_addresses cfg = .error e := by
  unfold generate_ip_addresses
  rw [h1, h2, h3, h4]

/-- A plan aborts with the management phase's exception when everything
before it succeeds. -/
theorem gen_fail_mgmt {cfg : Config} {sl ll vl : List CIDR}
    {ic : List (String × (CIDR × CIDR))} {e : PlanError}
    (h1 : loopbacksPhase cfg.spine_loopback_subnet cfg.spine_count = .ok sl)
    (h2 : loopbacksPhase cfg.leaf_loopback_subnet cfg.leaf_count = .ok ll)
    (h3 : loopbacksPhase cfg.vtep_loopback_subnet cfg.leaf_count = .ok vl)
    (h4 : allocInter cfg.interconnect_subnet_base (pairList cfg.spine_count cfg.leaf_count) 0 =
      .ok ic)
    (h5 : mgmtPhase cfg = .error e) :
    generate_ip_addresses cfg = .error e := by
  unfold generate_ip_addresses
  rw [h1, h2, h3, h4, h5]

/-- A successful plan certifies the loopback subnets' capacity (when
the corresponding count is positive). -/
theorem gen_ok_loopback_capacity {cfg : Config} {scheme : IpScheme}
    (h : generate_ip_addresses cfg = .ok scheme) :
    (cfg.spine_count = 0 ∨ cfg.spine_count ≤ hostCount cfg.spine_loopback_subnet) ∧
    (cfg.leaf_count = 0 ∨ cfg.leaf_count ≤ hostCount cfg.leaf_loopback_subnet) ∧
    (cfg.leaf_count = 0 ∨ cfg.leaf_count ≤ hostCount cfg.vtep_loopback_subnet) := by
  obtain ⟨hsl, hll, hvl, -, -⟩ := gen_ok_inv h
  refine ⟨?_, ?_, ?_⟩
  · rcases loopbacksFrom_ok_le _ _ _ _ hsl with h0 | hle
    · exact Or.inl h0
    · right
      rw [hostsList_length] at hle
      omega
  · rcases loopbacksFrom_ok_le _ _ _ _ hll with h0 | hle
    · exact Or.inl h0
    · right
      rw [hostsList_length] at hle
      omega
  · rcases loopbacksFrom_ok_le _ _ _ _ hvl with h0 | hle
    · exact Or.inl h0
    · right
      rw [hostsList_length] at hle
      omega

/-! ### Claim theorems -/

/-- C1: whenever the planner succeeds, it enumerates the interconnect
subnet's usable hosts in ascending order as one stream and, iterating
pairs spine-major, hands pair `(s, l)` — iteration number
`k = s * leaf_count + l` — the stream addresses at positions `2k`
(spine side first) and `2k + 1` (leaf side), both with /30 masks,
producing one dict entry per pair under key `spine(s+1)_leaf(l+1)`. -/
theorem c1_interconnect_spine_major_pairing {cfg : Config} {scheme : IpScheme}
    (h : generate_ip_addresses cfg = .ok scheme) {s l : Nat}
    (hs : s < cfg.spine_count) (hl : l < cfg.leaf_count) :
    List.Pairwise (· < ·) (hostsList cfg.interconnect_subnet_base) ∧
    scheme.interconnect_ips.length = cfg.spine_count * cfg.leaf_count ∧
    ∃ a b, (hostsList cfg.interconnect_subnet_base)[2 * (s * cfg.leaf_count + l)]? = some a ∧
      (hostsList cfg.interconnect_subnet_base)[2 * (s * cfg.leaf_count + l) + 1]? = some b ∧
      scheme.interconnect_ips[s * cfg.leaf_count + l]? = some (pairKey s l, (⟨a, 30⟩, ⟨b, 30⟩)) :=
  ⟨hostsList_sorted _, (gen_ok_interconnect h hs hl).1, (gen_ok_interconnect h hs hl).2⟩

/-- C1 witness: the spec's 2x2 example on 10.1.0.0/16 — the four pairs
receive the first eight usable hosts 10.1.0.1 .. 10.1.0.8 in spine-major
order, spine side first. -/
theorem c1_witness_fabric2x2 :
    ∃ scheme, generate_ip_addresses cfgW = .ok scheme ∧
      scheme.interconnect_ips.length = 4 ∧
      scheme.interconnect_ips[0]? = some ("spine1_leaf1", (⟨167837697, 30⟩, ⟨167837698, 30⟩)) ∧
      scheme.interconnect_ips[1]? = some ("spine1_leaf2", (⟨167837699, 30⟩, ⟨167837700, 30⟩)) ∧
      scheme.interconnect_ips[2]? = some ("spine2_leaf1", (⟨167837701, 30⟩, ⟨167837702, 30⟩)) ∧
      scheme.interconnect_ips[3]? = some ("spine2_leaf2", (⟨167837703, 30⟩, ⟨167837704, 30⟩)) := by
  obtain ⟨scheme, hplan⟩ := @gen_success cfgW (by decide) (by decide) (by decide)
    (by decide) ⟨_, mgmtPhase_auto rfl⟩
  refine ⟨scheme, hplan, ?_, ?_, ?_, ?_, ?_⟩
  · have h := (c1_interconnect_spine_major_pairing hplan (s := 0) (l := 0) (by decide)
      (by decide)).2.1
    rw [h]
    decide
  · obtain ⟨a, b, ha, hb, hout⟩ := (c1_interconnect_spine_major_pairing hplan (s := 0) (l := 0)
      (by decide) (by decide)).2.2
    rw [hostsList_getElem?] at ha hb
    norm_num [cfgW, hostCount, netSize, hostAddr] at ha hb
    subst ha
    subst hb
    have hk : pairKey 0 0 = "spine1_leaf1" := by decide
    norm_num [cfgW, hk] at hout
    exact hout
  · obtain ⟨a, b, ha, hb, hout⟩ := (c1_interconnect_spine_major_pairing hplan (s := 0) (l := 1)
      (by decide) (by decide)).2.2
    rw [hostsList_getElem?] at ha hb
    norm_num [cfgW, hostCount, netSize, hostAddr] at ha hb
    subst ha
    subst hb
    have hk : pairKey 0 1 = "spine1_leaf2" := by decide
    norm_num [cfgW, hk] at hout
    exact hout
  · obtain ⟨a, b, ha, hb, hout⟩ := (c1_interconnect_spine_major_pairing hplan (s := 1) (l := 0)
      (by decide) (by decide)).2.2
    rw [hostsList_getElem?] at ha hb
    norm_num [cfgW, hostCount, netSize, hostAddr] at ha hb
    subst ha
    subst hb
    have hk : pairKey 1 0 = "spine2_leaf1" := by decide
    norm_num [cfgW, hk] at hout
    exact hout
  · obtain ⟨a, b, ha, hb, hout⟩ := (c1_interconnect_spine_major_pairing hplan (s := 1) (l := 1)
      (by decide) (by decide)).2.2
    rw [hostsList_getElem?] at ha hb
    norm_num [cfgW, hostCount, netSize, hostAddr] at ha hb
    subst ha
    subst hb
    have hk : pairKey 1 1 = "spine2_leaf2" := by decide
    norm_num [cfgW, hk] at hout
    exact hout

/-- C4: the planner and the device builders are pure functions of their
inputs — two runs on identical input values produce identical output. -/
theorem c4_plan_deterministic (cfg1 cfg2 : Config) (h : cfg1 = cfg2) :
    generate_ip_addresses cfg1 = generate_ip_addresses cfg2 ∧
    (∀ i scheme, generate_spine_config i cfg1 scheme = generate_spine_config i cfg2 scheme) ∧
    (∀ i scheme, generate_leaf_config i cfg1 scheme = generate_leaf_config i cfg2 scheme) := by
  subst h
  exact ⟨rfl, fun _ _ => rfl, fun _ _ => rfl⟩

/-- C4 witness: two runs on the default configuration agree. -/
theorem c4_witness_two_runs :
    generate_ip_addresses cfgW = generate_ip_addresses cfgW ∧
    (∀ i scheme, generate_spine_config i cfgW scheme = generate_spine_config i cfgW scheme) ∧
    (∀ i scheme, generate_leaf_config i cfgW scheme = generate_leaf_config i cfgW scheme) :=
  c4_plan_deterministic cfgW cfgW rfl

/-- C5: whenever the planner succeeds, loopback index `i` (0-based) of
each of the three loopback subnets gets the `(i+1)`-th usable host of
that subnet — whose enumeration is strictly ascending — with a /32
mask. -/
theorem c5_loopback_assignment {cfg : Config} {scheme : IpScheme}
    (h : generate_ip_addresses cfg = .ok scheme) :
    List.Pairwise (· < ·) (hostsList cfg.spine_loopback_subnet) ∧
    (∀ i, i < cfg.spine_count → ∃ a, (hostsList cfg.spine_loopback_subnet)[i]? = some a ∧
      scheme.spine_loopbacks[i]? = some ⟨a, 32⟩) ∧
    (∀ i, i < cfg.leaf_count → ∃ a, (hostsList cfg.leaf_loopback_subnet)[i]? = some a ∧
      scheme.leaf_loopbacks[i]? = some ⟨a, 32⟩) ∧
    (∀ i, i < cfg.leaf_count → ∃ a, (hostsList cfg.vtep_loopback_subnet)[i]? = some a ∧
      scheme.vtep_loopbacks[i]? = some ⟨a, 32⟩) := by
  obtain ⟨hcs, hcl, hcv⟩ := gen_ok_loopback_capacity h
  obtain ⟨⟨-, hs⟩, ⟨-, hl⟩, ⟨-, hv⟩⟩ := gen_ok_loopbacks h
  refine ⟨hostsList_sorted _, ?_, ?_, ?_⟩
  · intro i hi
    refine ⟨hostAddr cfg.spine_loopback_subnet i, ?_, hs i hi⟩
    rw [hostsList_getElem?, if_pos (by omega)]
  · intro i hi
    refine ⟨hostAddr cfg.leaf_loopback_subnet i, ?_, hl i hi⟩
    rw [hostsList_getElem?, if_pos (by omega)]
  · intro i hi
    refine ⟨hostAddr cfg.vtep_loopback_subnet i, ?_, hv i hi⟩
    rw [hostsList_getElem?, if_pos (by omega)]

/-- C5 witness: with spine loopback subnet 10.255.1.0/24 and two
spines, spine01 gets 10.255.1.1/32 and spine02 gets 10.255.1.2/32
(10.255.1.1 = 184484097). -/
theorem c5_witness_spine_loopbacks :
    ∃ scheme, generate_ip_addresses cfgW = .ok scheme ∧
      scheme.spine_loopbacks[0]? = some ⟨184484097, 32⟩ ∧
      scheme.spine_loopbacks[1]? = some ⟨184484098, 32⟩ := by
  obtain ⟨scheme, hplan⟩ := @gen_success cfgW (by decide) (by decide) (by decide)
    (by decide) ⟨_, mgmtPhase_auto rfl⟩
  refine ⟨scheme, hplan, ?_, ?_⟩
  · obtain ⟨a, ha, hout⟩ := (c5_loopback_assignment hplan).2.1 0 (by decide)
    rw [hostsList_getElem?] at ha
    norm_num [cfgW, hostCount, netSize, hostAddr] at ha
    subst ha
    exact hout
  · obtain ⟨a, ha, hout⟩ := (c5_loopback_assignment hplan).2.1 1 (by decide)
    rw [hostsList_getElem?] at ha
    norm_num [cfgW, hostCount, netSize, hostAddr] at ha
    subst ha
    exact hout

/-- C6 evidence (code bug): on the default 2x2 fabric over 10.1.0.0/16
the planner stamps /30 masks on consecutively consumed hosts without
aligning pairs to /30 blocks, so pair (spine1, leaf2) receives
10.1.0.3/30 and 10.1.0.4/30 — addresses lying in two different /30
networks (10.1.0.0/30 versus 10.1.0.4/30). -/
theorem c6_pair_not_in_same_slash30 :
    ∃ scheme, generate_ip_addresses cfgW = .ok scheme ∧
      scheme.interconnect_ips[1]? = some ("spine1_leaf2", (⟨167837699, 30⟩, ⟨167837700, 30⟩)) ∧
      networkOf 167837699 30 ≠ networkOf 167837700 30 := by
  obtain ⟨scheme, hplan⟩ := @gen_success cfgW (by decide) (by decide) (by decide)
    (by decide) ⟨_, mgmtPhase_auto rfl⟩
  refine ⟨scheme, hplan, ?_, by decide⟩
  obtain ⟨a, b, ha, hb, hout⟩ := (gen_ok_interconnect hplan (s := 0) (l := 1) (by decide)
    (by decide)).2
  rw [hostsList_getElem?] at ha hb
  norm_num [cfgW, hostCount, netSize, hostAddr] at ha hb
  subst ha
  subst hb
  have hk : pairKey 0 1 = "spine1_leaf2" := by decide
  norm_num [cfgW, hk] at hout
  exact hout

/-- C7: with the loopback phases able to succeed and the management
configuration resolvable, planning fails with the interconnect loop's
exhaustion exception exactly when the interconnect subnet supplies
fewer than `2 * spine_count * leaf_count` usable hosts, and succeeds —
assigning all pairs — whenever it supplies at least that many. -/
theorem c7_interconnect_exhaustion {cfg : Config}
    (h1 : cfg.spine_count ≤ hostCount cfg.spine_loopback_subnet)
    (h2 : cfg.leaf_count ≤ hostCount cfg.leaf_loopback_subnet)
    (h3 : cfg.leaf_count ≤ hostCount cfg.vtep_loopback_subnet)
    (hm : ∃ m, mgmtPhase cfg = .ok m) :
    (hostCount cfg.interconnect_subnet_base < 2 * (cfg.spine_count * cfg.leaf_count) →
      generate_ip_addresses cfg = .error .stopIteration) ∧
    (2 * (cfg.spine_count * cfg.leaf_count) ≤ hostCount cfg.interconnect_subnet_base →
      ∃ scheme, generate_ip_addresses cfg = .ok scheme ∧
        scheme.interconnect_ips.length = cfg.spine_count * cfg.leaf_count) := by
  constructor
  · intro hlt
    obtain ⟨sl, hsl⟩ := loopbacksFrom_success (hostsList cfg.spine_loopback_subnet)
      cfg.spine_count 0 (by rw [hostsList_length]; omega)
    obtain ⟨ll, hll⟩ := loopbacksFrom_success (hostsList cfg.leaf_loopback_subnet)
      cfg.leaf_count 0 (by rw [hostsList_length]; omega)
    obtain ⟨vl, hvl⟩ := loopbacksFrom_success (hostsList cfg.vtep_loopback_subnet)
      cfg.leaf_count 0 (by rw [hostsList_length]; omega)
    have hne : pairList cfg.spine_count cfg.leaf_count ≠ [] := by
      intro he
      have hlen := pairList_length cfg.spine_count cfg.leaf_count
      rw [he] at hlen
      simp only [List.length_nil] at hlen
      rw [← hlen] at hlt
      simp at hlt
    have hfail := allocInter_fail cfg.interconnect_subnet_base _ 0 hne
      (by rw [hostsList_length, pairList_length]; simpa using hlt)
    exact gen_fail_interconnect hsl hll hvl hfail
  · intro hge
    obtain ⟨scheme, hok⟩ := gen_success h1 h2 h3 hge hm
    refine ⟨scheme, hok, ?_⟩
    rw [allocInter_ok_length _ _ _ _ (gen_ok_inv hok).2.2.2.1, pairList_length]

/-- C7 witness: a /30 interconnect base (2 usable hosts) cannot serve a
2x2 fabric and the run aborts; the /16 base serves all 4 pairs. -/
theorem c7_witness_exhaustion :
    generate_ip_addresses cfgX = .error .stopIteration ∧
    ∃ scheme, generate_ip_addresses cfgW = .ok scheme ∧ scheme.interconnect_ips.length = 4 := by
  constructor
  · exact (@c7_interconnect_exhaustion cfgX (by decide) (by decide) (by decide)
      ⟨_, mgmtPhase_auto rfl⟩).1 (by decide)
  · obtain ⟨scheme, hok, hlen⟩ := (@c7_interconnect_exhaustion cfgW (by decide)
      (by decide) (by decide) ⟨_, mgmtPhase_auto rfl⟩).2 (by decide)
    refine ⟨scheme, hok, ?_⟩
    rw [hlen]
    decide

/-- C8: in Manual management mode (with the address phases able to
succeed), a single declared spine or leaf hostname missing from the
caller-supplied mapping aborts the whole plan with the lookup's
exception — no partial plan is returned — while a complete mapping
makes the plan succeed with the supplied addresses used verbatim,
spines first and then leaves. -/
theorem c8_manual_mgmt_completeness {cfg : Config}
    (hmode : cfg.mgmt_mode = .manual)
    (h1 : cfg.spine_count ≤ hostCount cfg.spine_loopback_subnet)
    (h2 : cfg.leaf_count ≤ hostCount cfg.leaf_loopback_subnet)
    (h3 : cfg.leaf_count ≤ hostCount cfg.vtep_loopback_subnet)
    (h4 : 2 * (cfg.spine_count * cfg.leaf_count) ≤ hostCount cfg.interconnect_subnet_base) :
    (((∃ j, j < cfg.spine_count ∧ dictGet cfg.spine_mgmt_ips (hostname2 "spine" j) = none) ∨
      (∃ j, j < cfg.leaf_count ∧ dictGet cfg.leaf_mgmt_ips (hostname2 "leaf" j) = none)) →
      generate_ip_addresses cfg = .error .keyError) ∧
    ((∀ j, j < cfg.spine_count → dictGet cfg.spine_mgmt_ips (hostname2 "spine" j) ≠ none) →
     (∀ j, j < cfg.leaf_count → dictGet cfg.leaf_mgmt_ips (hostname2 "leaf" j) ≠ none) →
      ∃ scheme, generate_ip_addresses cfg = .ok scheme ∧
        scheme.mgmt_ips.length = cfg.spine_count + cfg.leaf_count ∧
        (∀ j, j < cfg.spine_count →
          ∃ v, dictGet cfg.spine_mgmt_ips (hostname2 "spine" j) = some v ∧
            scheme.mgmt_ips[j]? = some v) ∧
        (∀ j, j < cfg.leaf_count →
          ∃ v, dictGet cfg.leaf_mgmt_ips (hostname2 "leaf" j) = some v ∧
            scheme.mgmt_ips[cfg.spine_count + j]? = some v)) := by
  constructor
  · intro hmiss
    obtain ⟨sl, hsl⟩ := loopbacksFrom_success (hostsList cfg.spine_loopback_subnet)
      cfg.spine_count 0 (by rw [hostsList_length]; omega)
    obtain ⟨ll, hll⟩ := loopbacksFrom_success (hostsList cfg.leaf_loopback_subnet)
      cfg.leaf_count 0 (by rw [hostsList_length]; omega)
    obtain ⟨vl, hvl⟩ := loopbacksFrom_success (hostsList cfg.vtep_loopback_subnet)
      cfg.leaf_count 0 (by rw [hostsList_length]; omega)
    obtain ⟨ic, hic⟩ := allocInter_success cfg.interconnect_subnet_base
      (pairList cfg.spine_count cfg.leaf_count) 0
      (by rw [hostsList_length, pairList_length]; simpa using h4)
    exact gen_fail_mgmt hsl hll hvl hic (mgmtPhase_manual_fail hmode hmiss)
  · intro hsall hlall
    obtain ⟨ms, hms⟩ := manualMgmtList_success cfg.spine_mgmt_ips "spine" cfg.spine_count 0
      (fun j hj => by simpa using hsall j hj)
    obtain ⟨ml, hml⟩ := manualMgmtList_success cfg.leaf_mgmt_ips "leaf" cfg.leaf_count 0
      (fun j hj => by simpa using hlall j hj)
    have hmg : mgmtPhase cfg = .ok (ms ++ ml) := by
      unfold mgmtPhase
      rw [hmode, hms, hml]
    obtain ⟨scheme, hok⟩ := gen_success h1 h2 h3 h4 ⟨_, hmg⟩
    have hmg2 := (gen_ok_inv hok).2.2.2.2
    rw [hmg] at hmg2
    have hout : scheme.mgmt_ips = ms ++ ml := by
      injection hmg2 with h
      exact h.symm
    obtain ⟨hlens, hidxs⟩ := manualMgmtList_ok_getElem? _ _ _ _ _ hms
    obtain ⟨hlenl, hidxl⟩ := manualMgmtList_ok_getElem? _ _ _ _ _ hml
    refine ⟨scheme, hok, ?_, ?_, ?_⟩
    · rw [hout, List.length_append, hlens, hlenl]
    · intro j hj
      obtain ⟨v, hv1, hv2⟩ := hidxs j hj
      refine ⟨v, by simpa using hv1, ?_⟩
      rw [hout, List.getElem?_append_left (by omega), hv2]
    · intro j hj
      obtain ⟨v, hv1, hv2⟩ := hidxl j hj
      refine ⟨v, by simpa using hv1, ?_⟩
      rw [hout, List.getElem?_append_right (by omega), hlens]
      have harith : cfg.spine_count + j - cfg.spine_count = j := by omega
      rw [harith, hv2]

/-- C8 witness: on a 1x1 manual-mode fabric, deleting the leaf entry
aborts planning; the complete mapping plans with both supplied
addresses verbatim, spine first. -/
theorem c8_witness_manual_mgmt :
    generate_ip_addresses cfgMbad = .error .keyError ∧
    ∃ scheme, generate_ip_addresses cfgM = .ok scheme ∧
      scheme.mgmt_ips[0]? = some "192.168.1.10" ∧
      scheme.mgmt_ips[1]? = some "192.168.1.11" := by
  constructor
  · exact (@c8_manual_mgmt_completeness cfgMbad rfl (by decide) (by decide) (by decide)
      (by decide)).1 (Or.inr ⟨0, by decide, by decide⟩)
  · obtain ⟨scheme, hok, hlen, hsp, hlf⟩ :=
      (@c8_manual_mgmt_completeness cfgM rfl (by decide) (by decide) (by decide)
        (by decide)).2 (by decide) (by decide)
    obtain ⟨v, hv1, hv2⟩ := hsp 0 (by decide)
    obtain ⟨w, hw1, hw2⟩ := hlf 0 (by decide)
    have hv : v = "192.168.1.10" := by
      have : dictGet cfgM.spine_mgmt_ips (hostname2 "spine" 0) = some "192.168.1.10" := by decide
      rw [this] at hv1
      exact (Option.some.injEq _ _ ▸ hv1).symm
    have hw : w = "192.168.1.11" := by
      have : dictGet cfgM.leaf_mgmt_ips (hostname2 "leaf" 0) = some "192.168.1.11" := by decide
      rw [this] at hw1
      exact (Option.some.injEq _ _ ▸ hw1).symm
    refine ⟨scheme, hok, ?_, ?_⟩
    · rw [← hv]
      exact hv2
    · rw [← hw]
      have : cfgM.spine_count + 0 = 1 := by decide
      rw [← this]
      exact hw2

/-- C2 counterexample: a config in which every subnet is a valid IPv4
network with plenty of usable hosts for the requested counts — but the
spine and leaf loopback subnets are the same 10.255.1.0/24 — plans
successfully and hands the very same address 10.255.1.1 (184484097) to
both spine01's loopback and leaf01's loopback, so two entities share an
IP. -/
theorem c2_counterexample_overlapping_subnets :
    cfgC2.spine_count ≤ hostCount cfgC2.spine_loopback_subnet ∧
    cfgC2.leaf_count ≤ hostCount cfgC2.leaf_loopback_subnet ∧
    cfgC2.leaf_count ≤ hostCount cfgC2.vtep_loopback_subnet ∧
    2 * (cfgC2.spine_count * cfgC2.leaf_count) ≤ hostCount cfgC2.interconnect_subnet_base ∧
    ∃ scheme, generate_ip_addresses cfgC2 = .ok scheme ∧
      scheme.spine_loopbacks[0]? = some ⟨184484097, 32⟩ ∧
      scheme.leaf_loopbacks[0]? = some ⟨184484097, 32⟩ := by
  refine ⟨by decide, by decide, by decide, by decide, ?_⟩
  obtain ⟨scheme, hok⟩ := @gen_success cfgC2 (by decide) (by decide) (by decide)
    (by decide) ⟨_, mgmtPhase_auto rfl⟩
  obtain ⟨⟨-, hsp⟩, ⟨-, hlf⟩, -⟩ := gen_ok_loopbacks hok
  have h1 := hsp 0 (by decide)
  have h2 := hlf 0 (by decide)
  norm_num [cfgC2, cfgW, hostAddr] at h1 h2
  exact ⟨scheme, hok, h1, h2⟩

/-- C2 amended: when the four configured subnets are pairwise
range-disjoint, a successful plan gives the spine, leaf and VTEP
loopbacks and the interconnect endpoints pairwise distinct addresses;
and in Auto management mode the management strings are pairwise
distinct among themselves (nothing, however, relates management strings
to the subnet addresses). -/
theorem c2_amended_disjoint_subnets_unique {cfg : Config} {scheme : IpScheme}
    (h : generate_ip_addresses cfg = .ok scheme)
    (d12 : netsDisjoint cfg.spine_loopback_subnet cfg.leaf_loopback_subnet)
    (d13 : netsDisjoint cfg.spine_loopback_subnet cfg.vtep_loopback_subnet)
    (d14 : netsDisjoint cfg.spine_loopback_subnet cfg.interconnect_subnet_base)
    (d23 : netsDisjoint cfg.leaf_loopback_subnet cfg.vtep_loopback_subnet)
    (d24 : netsDisjoint cfg.leaf_loopback_subnet cfg.interconnect_subnet_base)
    (d34 : netsDisjoint cfg.vtep_loopback_subnet cfg.interconnect_subnet_base) :
    (planAddrs scheme).Nodup ∧ (cfg.mgmt_mode = .auto → scheme.mgmt_ips.Nodup) := by
  obtain ⟨hsl, hll, hvl, hic, hmg⟩ := gen_ok_inv h
  have eA : scheme.spine_loopbacks.map CIDR.addr =
      (hostsList cfg.spine_loopback_subnet).take cfg.spine_count := by
    have he := map_addr_of_loopbacks hsl
    rwa [List.drop_zero] at he
  have eB : scheme.leaf_loopbacks.map CIDR.addr =
      (hostsList cfg.leaf_loopback_subnet).take cfg.leaf_count := by
    have he := map_addr_of_loopbacks hll
    rwa [List.drop_zero] at he
  have eC : scheme.vtep_loopbacks.map CIDR.addr =
      (hostsList cfg.vtep_loopback_subnet).take cfg.leaf_count := by
    have he := map_addr_of_loopbacks hvl
    rwa [List.drop_zero] at he
  have eD : interAddrs scheme.interconnect_ips =
      (hostsList cfg.interconnect_subnet_base).take (2 * (cfg.spine_count * cfg.leaf_count)) := by
    have he := allocInter_ok_interAddrs _ _ _ _ hic
    rwa [List.drop_zero, pairList_length] at he
  constructor
  · unfold planAddrs
    rw [eA, eB, eC, eD, List.append_assoc, List.append_assoc]
    refine List.nodup_append.mpr ⟨take_hostsList_nodup _ _, ?_, ?_⟩
    · refine List.nodup_append.mpr ⟨take_hostsList_nodup _ _, ?_, ?_⟩
      · refine List.nodup_append.mpr
          ⟨take_hostsList_nodup _ _, take_hostsList_nodup _ _, ?_⟩
        intro x hx hy
        exact takes_disjoint d34 x hx hy
      · intro x hx hy
        rw [List.mem_append] at hy
        rcases hy with hy | hy
        · exact takes_disjoint d23 x hx hy
        · exact takes_disjoint d24 x hx hy
    · intro x hx hy
      rw [List.mem_append, List.mem_append] at hy
      rcases hy with hy | hy | hy
      · exact takes_disjoint d12 x hx hy
      · exact takes_disjoint d13 x hx hy
      · exact takes_disjoint d14 x hx hy
  · intro hauto
    rw [mgmtPhase_auto hauto] at hmg
    injection hmg with he
    exact he ▸ autoMgmtList_nodup cfg

/-- C2 (amended) witness: the default disjoint-subnet configuration
yields a plan whose on-subnet addresses and management strings are all
distinct. -/
theorem c2_witness_disjoint_example :
    ∃ scheme, generate_ip_addresses cfgW = .ok scheme ∧
      (planAddrs scheme).Nodup ∧ scheme.mgmt_ips.Nodup := by
  obtain ⟨scheme, hok⟩ := @gen_success cfgW (by decide) (by decide) (by decide)
    (by decide) ⟨_, mgmtPhase_auto rfl⟩
  have h := c2_amended_disjoint_subnets_unique hok (Or.inl (by decide)) (Or.inl (by decide))
    (Or.inr (by decide)) (Or.inl (by decide)) (Or.inr (by decide)) (Or.inr (by decide))
  exact ⟨scheme, hok, h.1, h.2 rfl⟩

/-- Interface-count form of the ExactMatch leaf builder: uplinks are
capped at `spine_count`, the access entry appears only for a strictly
longer list. -/
theorem generate_leaf_config_exact_length {cfg : Config} {scheme : IpScheme} {leaf_idx : Nat}
    (hplan : generate_ip_addresses cfg = .ok scheme)
    (hmode : cfg.interface_mapping_mode = .exactMatch)
    (hl : leaf_idx < cfg.leaf_count) :
    ∃ r, generate_leaf_config leaf_idx cfg scheme = .ok r ∧
      r.leaf_interfaces.length =
        min ((dictGet cfg.leaf_interfaces (hostname2 "leaf" leaf_idx)).getD []).length
          cfg.spine_count +
        (if cfg.spine_count <
            ((dictGet cfg.leaf_interfaces (hostname2 "leaf" leaf_idx)).getD []).length
         then 1 else 0) := by
  obtain ⟨r, ups, hok, hlen, hform⟩ := generate_leaf_config_exact hplan hmode hl
  refine ⟨r, hok, ?_⟩
  rw [hform, List.length_append, hlen]
  congr 1
  by_cases hc : cfg.spine_count <
      ((dictGet cfg.leaf_interfaces (hostname2 "leaf" leaf_idx)).getD []).length
  · rw [dif_pos hc, if_pos hc]
    rfl
  · rw [dif_neg hc, if_neg hc]
    rfl

/-- C3 amended: in ExactMatch mode the builders never fail on a short
caller-supplied list — a leaf list with fewer than `spine_count + 1`
entries yields a record with exactly one interface per supplied entry
and no access entry, and a spine list shorter than `leaf_count` yields
one interface per entry; no exception is raised. -/
theorem c3_amended_short_list_truncates {cfg : Config} {scheme : IpScheme}
    (hplan : generate_ip_addresses cfg = .ok scheme)
    (hmode : cfg.interface_mapping_mode = .exactMatch) :
    (∀ leaf_idx L, leaf_idx < cfg.leaf_count →
      dictGet cfg.leaf_interfaces (hostname2 "leaf" leaf_idx) = some L →
      L.length < cfg.spine_count + 1 →
      ∃ r, generate_leaf_config leaf_idx cfg scheme = .ok r ∧
        r.leaf_interfaces.length = L.length) ∧
    (∀ spine_idx L, spine_idx < cfg.spine_count →
      dictGet cfg.spine_interfaces (hostname2 "spine" spine_idx) = some L →
      L.length < cfg.leaf_count →
      ∃ r, generate_spine_config spine_idx cfg scheme = .ok r ∧
        r.spine_interfaces.length = L.length) := by
  constructor
  · intro leaf_idx L hl hL hshort
    obtain ⟨r, hok, hlen⟩ := generate_leaf_config_exact_length hplan hmode hl
    refine ⟨r, hok, ?_⟩
    rw [hL] at hlen
    simp only [Option.getD_some] at hlen
    rw [hlen, if_neg (by omega : ¬ cfg.spine_count < L.length)]
    have hmin : min L.length cfg.spine_count = L.length := min_eq_left (by omega)
    omega
  · intro spine_idx L hs hL hshort
    obtain ⟨r, ups, hok, hlen, hform⟩ := generate_spine_config_exact hplan hmode hs
    refine ⟨r, hok, ?_⟩
    rw [hL] at hlen
    simp only [Option.getD_some] at hlen
    rw [hform, hlen]
    have hmin : min L.length cfg.leaf_count = L.length := min_eq_left (by omega)
    omega

/-- C3 counterexample: in ExactMatch mode with spine_count = 2 and a
single supplied leaf interface name (fewer than spine_count + 1 = 3),
building leaf01's record raises nothing and returns a record with just
that one interface. -/
theorem c3_counterexample_short_list_no_error :
    cfgE.interface_mapping_mode = .exactMatch ∧
    cfgE.spine_count = 2 ∧
    dictGet cfgE.leaf_interfaces (hostname2 "leaf" 0) = some ["10GE1/0/1"] ∧
    ∃ scheme r, generate_ip_addresses cfgE = .ok scheme ∧
      generate_leaf_config 0 cfgE scheme = .ok r ∧
      r.leaf_interfaces.length = 1 := by
  refine ⟨rfl, rfl, by decide, ?_⟩
  obtain ⟨scheme, hok⟩ := @gen_success cfgE (by decide) (by decide) (by decide)
    (by decide) ⟨_, mgmtPhase_auto rfl⟩
  obtain ⟨r, hrok, hlen⟩ := @generate_leaf_config_exact_length cfgE scheme 0 hok rfl (by decide)
  refine ⟨scheme, r, hok, hrok, ?_⟩
  rw [hlen]
  decide

/-- C3 witness: the amended statement at the concrete short-list
configuration. -/
theorem c3_witness_short_list :
    ∃ scheme r, generate_ip_addresses cfgE = .ok scheme ∧
      generate_leaf_config 0 cfgE scheme = .ok r ∧
      r.leaf_interfaces.length = 1 := by
  obtain ⟨scheme, hok⟩ := @gen_success cfgE (by decide) (by decide) (by decide)
    (by decide) ⟨_, mgmtPhase_auto rfl⟩
  obtain ⟨r, hrok, hlen⟩ := (c3_amended_short_list_truncates hok rfl).1 0 ["10GE1/0/1"]
    (by decide) (by decide) (by decide)
  exact ⟨scheme, r, hok, hrok, hlen⟩

/-- C9: in ExactMatch mode, a hostname absent from the supplied
interface map produces a record with an empty interface list and no
error (for a leaf: no uplinks and no access entry), and entries beyond
`leaf_count` (spine) or beyond position `spine_count` (leaf) are
silently ignored, capping the interface counts. -/
theorem c9_exactmatch_missing_and_extra_entries {cfg : Config} {scheme : IpScheme}
    (hplan : generate_ip_addresses cfg = .ok scheme)
    (hmode : cfg.interface_mapping_mode = .exactMatch) :
    (∀ spine_idx, spine_idx < cfg.spine_count →
      dictGet cfg.spine_interfaces (hostname2 "spine" spine_idx) = none →
      ∃ r, generate_spine_config spine_idx cfg scheme = .ok r ∧ r.spine_interfaces = []) ∧
    (∀ leaf_idx, leaf_idx < cfg.leaf_count →
      dictGet cfg.leaf_interfaces (hostname2 "leaf" leaf_idx) = none →
      ∃ r, generate_leaf_config leaf_idx cfg scheme = .ok r ∧ r.leaf_interfaces = []) ∧
    (∀ spine_idx L, spine_idx < cfg.spine_count →
      dictGet cfg.spine_interfaces (hostname2 "spine" spine_idx) = some L →
      cfg.leaf_count ≤ L.length →
      ∃ r, generate_spine_config spine_idx cfg scheme = .ok r ∧
        r.spine_interfaces.length = cfg.leaf_count) ∧
    (∀ leaf_idx L, leaf_idx < cfg.leaf_count →
      dictGet cfg.leaf_interfaces (hostname2 "leaf" leaf_idx) = some L →
      cfg.spine_count < L.length →
      ∃ r, generate_leaf_config leaf_idx cfg scheme = .ok r ∧
        r.leaf_interfaces.length = cfg.spine_count + 1) := by
  refine ⟨?_, ?_, ?_, ?_⟩
  · intro spine_idx hs hnone
    obtain ⟨r, ups, hok, hlen, hform⟩ := generate_spine_config_exact hplan hmode hs
    refine ⟨r, hok, ?_⟩
    rw [hnone] at hlen
    simp only [Option.getD_none, List.length_nil, Nat.zero_min] at hlen
    rw [hform, List.eq_nil_of_length_eq_zero hlen]
  · intro leaf_idx hl hnone
    obtain ⟨r, hok, hlen⟩ := generate_leaf_config_exact_length hplan hmode hl
    refine ⟨r, hok, ?_⟩
    rw [hnone] at hlen
    simp only [Option.getD_none, List.length_nil, Nat.zero_min, Nat.not_lt_zero, if_false,
      Nat.add_zero] at hlen
    exact List.eq_nil_of_length_eq_zero hlen
  · intro spine_idx L hs hL hlong
    obtain ⟨r, ups, hok, hlen, hform⟩ := generate_spine_config_exact hplan hmode hs
    refine ⟨r, hok, ?_⟩
    rw [hL] at hlen
    simp only [Option.getD_some] at hlen
    rw [hform, hlen]
    exact min_eq_right hlong
  · intro leaf_idx L hl hL hlong
    obtain ⟨r, hok, hlen⟩ := generate_leaf_config_exact_length hplan hmode hl
    refine ⟨r, hok, ?_⟩
    rw [hL] at hlen
    simp only [Option.getD_some] at hlen
    rw [hlen, if_pos hlong, min_eq_right (by omega)]

/-- C9 witness: a 1x1 ExactMatch fabric with no spine entry and three
leaf names — spine record built with no interfaces, leaf record built
with exactly spine_count + 1 = 2 interfaces. -/
theorem c9_witness_exactmatch_edge :
    ∃ scheme, generate_ip_addresses cfgE9 = .ok scheme ∧
      (∃ r, generate_spine_config 0 cfgE9 scheme = .ok r ∧ r.spine_interfaces = []) ∧
      (∃ r, generate_leaf_config 0 cfgE9 scheme = .ok r ∧ r.leaf_interfaces.length = 2) := by
  obtain ⟨scheme, hok⟩ := @gen_success cfgE9 (by decide) (by decide) (by decide)
    (by decide) ⟨_, mgmtPhase_auto rfl⟩
  have h := c9_exactmatch_missing_and_extra_entries hok rfl
  refine ⟨scheme, hok, h.1 0 (by decide) (by decide), ?_⟩
  obtain ⟨r, hrok, hlen⟩ := h.2.2.2 0 ["10GE1/0/7", "10GE1/0/8", "10GE1/0/9"]
    (by decide) (by decide) (by decide)
  refine ⟨r, hrok, ?_⟩
  rw [hlen]
  decide

/-- C10: in Auto management mode the planner concatenates the base
string with `mgmt_start + i` as the final octet for device index `i`
with no range validation; when `mgmt_start + spine_count + leaf_count - 1`
exceeds 255 it still succeeds and the last management string is not a
valid dotted-quad IPv4 address. -/
theorem c10_auto_mgmt_no_range_validation {cfg : Config}
    (hmode : cfg.mgmt_mode = .auto)
    (h1 : cfg.spine_count ≤ hostCount cfg.spine_loopback_subnet)
    (h2 : cfg.leaf_count ≤ hostCount cfg.leaf_loopback_subnet)
    (h3 : cfg.leaf_count ≤ hostCount cfg.vtep_loopback_subnet)
    (h4 : 2 * (cfg.spine_count * cfg.leaf_count) ≤ hostCount cfg.interconnect_subnet_base)
    (hpos : 1 ≤ cfg.spine_count + cfg.leaf_count)
    (hover : 255 < cfg.mgmt_start + (cfg.spine_count + cfg.leaf_count) - 1) :
    ∃ scheme, generate_ip_addresses cfg = .ok scheme ∧
      (∀ i, i < cfg.spine_count + cfg.leaf_count →
        scheme.mgmt_ips[i]? = some (cfg.mgmt_base_ip ++ "." ++ natRepr (cfg.mgmt_start + i))) ∧
      ∃ s, scheme.mgmt_ips[cfg.spine_count + cfg.leaf_count - 1]? = some s ∧
        ¬ isValidIPv4 s := by
  obtain ⟨scheme, hok⟩ := gen_success h1 h2 h3 h4 ⟨_, mgmtPhase_auto hmode⟩
  have hmg := (gen_ok_inv hok).2.2.2.2
  rw [mgmtPhase_auto hmode] at hmg
  injection hmg with he
  have hidx : ∀ i, i < cfg.spine_count + cfg.leaf_count →
      scheme.mgmt_ips[i]? = some (cfg.mgmt_base_ip ++ "." ++ natRepr (cfg.mgmt_start + i)) := by
    intro i hi
    rw [← he]
    unfold autoMgmtList
    simp [hi]
  refine ⟨scheme, hok, hidx, ?_⟩
  refine ⟨cfg.mgmt_base_ip ++ "." ++
    natRepr (cfg.mgmt_start + (cfg.spine_count + cfg.leaf_count - 1)),
    hidx _ (by omega), ?_⟩
  exact concat_overflow_invalid _ _ (by omega)

/-- C10 witness: start octet 255 on the four-device default fabric —
the last device's management string is the non-address
"192.168.1.258", and planning succeeds anyway. -/
theorem c10_witness_mgmt_overflow :
    ∃ scheme, generate_ip_addresses cfgO = .ok scheme ∧
      scheme.mgmt_ips[3]? = some "192.168.1.258" ∧ ¬ isValidIPv4 "192.168.1.258" := by
  obtain ⟨scheme, hok, hall, s, hs', hinv⟩ := @c10_auto_mgmt_no_range_validation cfgO
    rfl (by decide) (by decide) (by decide) (by decide) (by decide) (by decide)
  have h3 := hall 3 (by decide)
  have heq : cfgO.mgmt_base_ip ++ "." ++ natRepr (cfgO.mgmt_start + 3) = "192.168.1.258" := by
    decide
  rw [heq] at h3
  have hidx : cfgO.spine_count + cfgO.leaf_count - 1 = 3 := by decide
  rw [hidx, h3] at hs'
  have hse : s = "192.168.1.258" := (Option.some.inj hs').symm
  exact ⟨scheme, hok, h3, hse ▸ hinv⟩
